import Mathlib

/-!
Verification of the cash-tx-builder library (a Bitcoin Cash transaction
builder written in Rust) against its natural-language specification.

The Rust sources are shallowly embedded: byte buffers become `List Nat`
(each entry a byte value), machine integers become `Nat` with explicit
wrap-around where the source can overflow, fallible functions return
`Except Error` or `Option`, and a Rust panic is modelled as a dedicated
outcome.  Definitions follow the source files `src/types/var_int.rs`,
`src/types/uint256.rs`, `src/types/transaction.rs` (with its `input.rs`,
`output.rs`, `outpoint.rs` submodules), `src/script.rs` and
`src/tx_builder.rs`.
-/

namespace CashTx

/-- Little-endian byte rendering of `n` on `w` bytes, the embedding of
`to_le_bytes` on the fixed-width integer types. -/
def toLeBytes (w n : Nat) : List Nat :=
  (List.range w).map fun i => n / 256 ^ i % 256

/-- Little-endian byte reading, the embedding of `from_le_bytes`. -/
def fromLeBytes (l : List Nat) : Nat :=
  l.foldr (fun b acc => b + 256 * acc) 0

/-- Error enum of the library (`src/error.rs` merged with
`src/types/error.rs`; the crate splits the variants over two enums with a
conversion between them, which a single Lean inductive represents).  The
`InvalidOpCode` variant is listed in the spec's error taxonomy (§7) and
returned by `script::decode`. -/
inductive Error where
  | InvalidIndex (i : Nat)
  | InvalidLengthData (l : Nat)
  | InvalidOpCode (b : Nat)
  | InvalidAddress (a : List Char)
  | TxParseError (offset : Nat) (rest : List Nat)
  | TryFromVarIntError
  | HexError
deriving DecidableEq, Repr

/-- Result of running a Rust method: normal return value, error return, or
panic (used to model `copy_from_slice` aborting on a length mismatch). -/
inductive Outcome (α : Type) where
  | panicked
  | fail (e : Error)
  | ok (v : α)
deriving DecidableEq, Repr

/-! ## VarInt (src/types/var_int.rs) -/

/-- Embedding of `From<VarInt> for Vec<u8>`: minimal-length serialization
chosen by the range of the wrapped `u64` value. -/
def varIntEncode (n : Nat) : List Nat :=
  if n ≤ 0xfc then [n]
  else if n ≤ 0xffff then 0xfd :: toLeBytes 2 n
  else if n ≤ 0xffffffff then 0xfe :: toLeBytes 4 n
  else 0xff :: toLeBytes 8 n

/-- Embedding of `VarInt::len`: the canonical serialized length of the
wrapped value. -/
def varIntLen (n : Nat) : Nat :=
  if n ≤ 0xfc then 1
  else if n ≤ 0xffff then 3
  else if n ≤ 0xffffffff then 5
  else 9

/-- Total encoded length dictated by the first serialized byte, as the
spec describes the decoder ("read the first byte to determine total
length (1, 3, 5, or 9)"). -/
def varIntDictatedLen (b : Nat) : Nat :=
  if b = 0xfd then 3
  else if b = 0xfe then 5
  else if b = 0xff then 9
  else 1

/-- Embedding of `TryFrom<&[u8]> for VarInt`: reads the prefix byte, then
requires enough trailing bytes for the little-endian payload. -/
def varIntTryFrom (v : List Nat) : Option Nat :=
  match v with
  | [] => none
  | b :: rest =>
    if b ≤ 0xfc then some b
    else if b = 0xfd then
      if 2 ≤ rest.length then some (fromLeBytes (rest.take 2)) else none
    else if b = 0xfe then
      if 4 ≤ rest.length then some (fromLeBytes (rest.take 4)) else none
    else if b = 0xff then
      if 8 ≤ rest.length then some (fromLeBytes (rest.take 8)) else none
    else none

/-- Embedding of `read_var_int` in `src/types/transaction.rs`: decodes a
`VarInt` from the front of the buffer and then advances by `VarInt::len()`
of the decoded value (its canonical length). -/
def readVarInt (v : List Nat) : Option (Nat × List Nat) :=
  match varIntTryFrom v with
  | none => none
  | some n => some (n, v.drop (varIntLen n))

/-! ## 256-bit value (src/types/uint256.rs) -/

/-- Embedding of `From<&[u8]> for uint256`.  The source takes
`src = &v[0..31]` (31 bytes) when the input is longer than 32 bytes and
copies it into the full 32-byte array with `copy_from_slice`, which panics
on the length mismatch; the panic is modelled as `none`.  Inputs of at
most 32 bytes are copied into a zero-initialized 32-byte array. -/
def uint256FromBytes (v : List Nat) : Option (List Nat) :=
  if 32 < v.length then none
  else some (v ++ List.replicate (32 - v.length) 0)

/-- Modelled from the spec: hex text decoding is delegated to the external
`hex` crate (spec §1 lists hex text encoding/decoding as an external
collaborator), whose sources are not part of this repository.  Standard
hexadecimal digit value, accepting both letter cases. -/
def hexDigitVal (c : Char) : Option Nat :=
  if '0' ≤ c ∧ c ≤ '9' then some (c.toNat - 48)
  else if 'a' ≤ c ∧ c ≤ 'f' then some (c.toNat - 87)
  else if 'A' ≤ c ∧ c ≤ 'F' then some (c.toNat - 55)
  else none

/-- Modelled from the spec: `hex::decode` of the external `hex` crate,
failing on an odd-length string or a non-hexadecimal character. -/
def hexDecode : List Char → Option (List Nat)
  | [] => some []
  | [_] => none
  | hi :: lo :: rest =>
    match hexDigitVal hi, hexDigitVal lo, hexDecode rest with
    | some h, some l, some tl => some ((16 * h + l) :: tl)
    | _, _, _ => none

/-- Embedding of `FromStr for uint256`: hex-decode the text, reverse the
byte order, and build the 32-byte value.  Inherits the panic of
`uint256FromBytes` when the decoded text is longer than 32 bytes. -/
def u256FromStr (s : List Char) : Outcome (List Nat) :=
  match hexDecode s with
  | none => .fail .HexError
  | some bytes =>
    match uint256FromBytes bytes.reverse with
    | none => .panicked
    | some a => .ok a

/-! ## Script codec (src/script.rs) -/

/-- Modelled from the spec: `lib.rs` declares `mod opcode` but the file
`opcode.rs` is absent from the provided sources.  The constructors and
byte values follow the spec (§4.2 push-data grammar, §4.6 standard
scripts, §8 test vectors such as `76a914…88ac`) and the opcodes named in
`script.rs`, `p2pkh.rs`, `p2sh.rs`: these are the standard Bitcoin
values. -/
inductive OpCode where
  | OP_0
  | OP_PUSHDATA1
  | OP_PUSHDATA2
  | OP_PUSHDATA4
  | OP_1NEGATE
  | OP_1 | OP_2 | OP_3 | OP_4 | OP_5 | OP_6 | OP_7 | OP_8
  | OP_9 | OP_10 | OP_11 | OP_12 | OP_13 | OP_14 | OP_15 | OP_16
  | OP_RETURN
  | OP_DUP
  | OP_EQUAL
  | OP_EQUALVERIFY
  | OP_HASH160
  | OP_CHECKSIG
deriving DecidableEq, Repr

/-- Byte value of an opcode (the `as u8` cast on the Rust enum). -/
def OpCode.toU8 : OpCode → Nat
  | .OP_0 => 0x00
  | .OP_PUSHDATA1 => 0x4c
  | .OP_PUSHDATA2 => 0x4d
  | .OP_PUSHDATA4 => 0x4e
  | .OP_1NEGATE => 0x4f
  | .OP_1 => 0x51
  | .OP_2 => 0x52
  | .OP_3 => 0x53
  | .OP_4 => 0x54
  | .OP_5 => 0x55
  | .OP_6 => 0x56
  | .OP_7 => 0x57
  | .OP_8 => 0x58
  | .OP_9 => 0x59
  | .OP_10 => 0x5a
  | .OP_11 => 0x5b
  | .OP_12 => 0x5c
  | .OP_13 => 0x5d
  | .OP_14 => 0x5e
  | .OP_15 => 0x5f
  | .OP_16 => 0x60
  | .OP_RETURN => 0x6a
  | .OP_DUP => 0x76
  | .OP_EQUAL => 0x87
  | .OP_EQUALVERIFY => 0x88
  | .OP_HASH160 => 0xa9
  | .OP_CHECKSIG => 0xac

/-- Modelled from the spec: `OpCode::from_u8` (derived `FromPrimitive` on
the absent enum), recognizing exactly the modelled opcode bytes. -/
def OpCode.fromU8 (b : Nat) : Option OpCode :=
  if b = 0x00 then some .OP_0
  else if b = 0x4c then some .OP_PUSHDATA1
  else if b = 0x4d then some .OP_PUSHDATA2
  else if b = 0x4e then some .OP_PUSHDATA4
  else if b = 0x4f then some .OP_1NEGATE
  else if b = 0x51 then some .OP_1
  else if b = 0x52 then some .OP_2
  else if b = 0x53 then some .OP_3
  else if b = 0x54 then some .OP_4
  else if b = 0x55 then some .OP_5
  else if b = 0x56 then some .OP_6
  else if b = 0x57 then some .OP_7
  else if b = 0x58 then some .OP_8
  else if b = 0x59 then some .OP_9
  else if b = 0x5a then some .OP_10
  else if b = 0x5b then some .OP_11
  else if b = 0x5c then some .OP_12
  else if b = 0x5d then some .OP_13
  else if b = 0x5e then some .OP_14
  else if b = 0x5f then some .OP_15
  else if b = 0x60 then some .OP_16
  else if b = 0x6a then some .OP_RETURN
  else if b = 0x76 then some .OP_DUP
  else if b = 0x87 then some .OP_EQUAL
  else if b = 0x88 then some .OP_EQUALVERIFY
  else if b = 0xa9 then some .OP_HASH160
  else if b = 0xac then some .OP_CHECKSIG
  else none

/-- Script element (`enum Script` in `src/script.rs`): an opcode or a
data push. -/
inductive Script where
  | OpCode (op : OpCode)
  | Data (d : List Nat)
deriving DecidableEq, Repr

/-- Embedding of the `DATA_OPCODE` table indexed by a small push value. -/
def dataOpcode (i : Nat) : OpCode :=
  match i with
  | 0 => .OP_0
  | 1 => .OP_1
  | 2 => .OP_2
  | 3 => .OP_3
  | 4 => .OP_4
  | 5 => .OP_5
  | 6 => .OP_6
  | 7 => .OP_7
  | 8 => .OP_8
  | 9 => .OP_9
  | 10 => .OP_10
  | 11 => .OP_11
  | 12 => .OP_12
  | 13 => .OP_13
  | 14 => .OP_14
  | 15 => .OP_15
  | _ => .OP_16

/-- Embedding of `push_data` in `src/script.rs`.  The source appends to a
mutable accumulator; the embedding returns the appended bytes.  Arms are
kept in source order: empty data, single byte at most 16, single byte
0x81, then the length ranges. -/
def push_data (data : List Nat) : Except Error (List Nat) :=
  if data.length = 0 then
    .ok [OpCode.toU8 .OP_0]
  else if data.length = 1 ∧ data.headD 0 ≤ 16 then
    .ok [(dataOpcode (data.headD 0)).toU8]
  else if data.length = 1 ∧ data.headD 0 = 0x81 then
    .ok [OpCode.toU8 .OP_1NEGATE]
  else if data.length ≤ 0x4b then
    .ok (data.length :: data)
  else if data.length ≤ 0xff then
    .ok (OpCode.toU8 .OP_PUSHDATA1 :: (toLeBytes 1 data.length ++ data))
  else if data.length ≤ 0xffff then
    .ok (OpCode.toU8 .OP_PUSHDATA2 :: (toLeBytes 2 data.length ++ data))
  else if data.length ≤ 0xffffffff then
    .ok (OpCode.toU8 .OP_PUSHDATA4 :: (toLeBytes 4 data.length ++ data))
  else
    .error (.InvalidLengthData data.length)

/-- Bytes contributed by one element of `encode`'s `try_fold`: an opcode
pushes its byte, a data push goes through `push_data`. -/
def elemEncode : Script → Except Error (List Nat)
  | .OpCode op => .ok [op.toU8]
  | .Data d => push_data d

/-- Embedding of `encode` in `src/script.rs`: left-to-right `try_fold`
concatenating each element's bytes, stopping at the first error. -/
def encode : List Script → Except Error (List Nat)
  | [] => .ok []
  | s :: rest =>
    match elemEncode s with
    | .error e => .error e
    | .ok hd =>
      match encode rest with
      | .error e => .error e
      | .ok tl => .ok (hd ++ tl)

/-- Embedding of `get_opcode` in `src/script.rs`: reads one element from
the front of the buffer, returning it with the unconsumed remainder. -/
def getOpcode (v : List Nat) : Option (Script × List Nat) :=
  match v with
  | [] => none
  | op :: rest =>
    if op ≤ 0x4b then
      if op ≤ rest.length then some (.Data (rest.take op), rest.drop op) else none
    else
      match OpCode.fromU8 op with
      | some .OP_PUSHDATA1 =>
        match rest with
        | [] => none
        | len :: r2 =>
          if len ≤ r2.length then some (.Data (r2.take len), r2.drop len) else none
      | some .OP_PUSHDATA2 =>
        if 2 ≤ rest.length then
          let len := fromLeBytes (rest.take 2)
          let r2 := rest.drop 2
          if len ≤ r2.length then some (.Data (r2.take len), r2.drop len) else none
        else none
      | some .OP_PUSHDATA4 =>
        if 4 ≤ rest.length then
          let len := fromLeBytes (rest.take 4)
          let r2 := rest.drop 4
          if len ≤ r2.length then some (.Data (r2.take len), r2.drop len) else none
        else none
      | some o => some (.OpCode o, rest)
      | none => none

/-- Successful `getOpcode` consumes at least one byte (termination
argument for `decode`). -/
def getOpcode_length_lt {v : List Nat} {s : Script} {n : List Nat}
    (h : getOpcode v = some (s, n)) : n.length < v.length := by
  match v with
  | [] => simp [getOpcode] at h
  | op :: rest =>
    simp only [getOpcode] at h
    split at h
    · split at h
      · simp only [Option.some.injEq, Prod.mk.injEq] at h
        obtain ⟨-, rfl⟩ := h
        simp only [List.length_cons, List.length_drop]
        omega
      · exact absurd h (by simp)
    · split at h
      · rename_i heq
        match rest with
        | [] => exact absurd h (by simp)
        | len :: r2 =>
          simp only at h
          split at h
          · simp only [Option.some.injEq, Prod.mk.injEq] at h
            obtain ⟨-, rfl⟩ := h
            simp only [List.length_cons, List.length_drop]
            omega
          · exact absurd h (by simp)
      · split at h
        · split at h
          · simp only [Option.some.injEq, Prod.mk.injEq] at h
            obtain ⟨-, rfl⟩ := h
            simp only [List.length_cons, List.length_drop]
            omega
          · exact absurd h (by simp)
        · exact absurd h (by simp)
      · split at h
        · split at h
          · simp only [Option.some.injEq, Prod.mk.injEq] at h
            obtain ⟨-, rfl⟩ := h
            simp only [List.length_cons, List.length_drop]
            omega
          · exact absurd h (by simp)
        · exact absurd h (by simp)
      · simp only [Option.some.injEq, Prod.mk.injEq] at h
        obtain ⟨-, rfl⟩ := h
        simp
      · exact absurd h (by simp)

/-- Embedding of `decode` in `src/script.rs`: repeatedly read elements
until the buffer is exhausted; an unreadable head byte is an
`InvalidOpCode` error. -/
def decode (v : List Nat) : Except Error (List Script) :=
  match v with
  | [] => .ok []
  | b :: rest =>
    match hg : getOpcode (b :: rest) with
    | some (s, n) =>
      have : n.length < (b :: rest).length := getOpcode_length_lt hg
      match decode n with
      | .ok tl => .ok (s :: tl)
      | .error e => .error e
    | none => .error (.InvalidOpCode b)
termination_by v.length

/-! ## Transaction model (src/types/transaction.rs and submodules) -/

/-- Outpoint (`src/types/transaction/outpoint.rs`): previous transaction
id (a 32-byte array, carried as a list with a well-formedness invariant)
and output index. -/
structure OutPoint where
  txid : List Nat
  n : Nat
deriving DecidableEq, Repr

/-- Transaction input (`src/types/transaction/input.rs`). -/
structure Input where
  outpoint : OutPoint
  script : List Nat
  sequence_no : Nat
deriving DecidableEq, Repr

/-- Transaction output (`src/types/transaction/output.rs`). -/
structure Output where
  value : Nat
  script : List Nat
deriving DecidableEq, Repr

/-- Transaction (`src/types/transaction.rs`). -/
structure Transaction where
  version : Nat
  inputs : List Input
  outputs : List Output
  lock_time : Nat
deriving DecidableEq, Repr

/-- Embedding of `Input::new`: empty unlocking script, sequence number
defaulting to 0xffffffff. -/
def Input.new (txid : List Nat) (index : Nat) (sequence_no : Option Nat) : Input :=
  { outpoint := { txid := txid, n := index }
    script := []
    sequence_no := sequence_no.getD 0xffffffff }

/-- Embedding of `Output::new`. -/
def Output.new (value : Nat) (script : List Nat) : Output :=
  { value := value, script := script }

/-- Embedding of `Transaction::new`: version 2, no inputs or outputs,
lock time 0. -/
def Transaction.new : Transaction :=
  { version := 2, inputs := [], outputs := [], lock_time := 0 }

/-- Embedding of `From<&OutPoint> for Vec<u8>`: 32 txid bytes then the
4-byte little-endian index. -/
def outPointToVec (op : OutPoint) : List Nat :=
  op.txid ++ toLeBytes 4 op.n

/-- Embedding of `From<&Input> for Vec<u8>`. -/
def inputToVec (i : Input) : List Nat :=
  outPointToVec i.outpoint ++ varIntEncode i.script.length ++ i.script ++
    toLeBytes 4 i.sequence_no

/-- Embedding of `From<&Output> for Vec<u8>`. -/
def outputToVec (o : Output) : List Nat :=
  toLeBytes 8 o.value ++ varIntEncode o.script.length ++ o.script

/-- Embedding of `From<&Transaction> for Vec<u8>`: version, input count,
inputs, output count, outputs, lock time. -/
def txToVec (tx : Transaction) : List Nat :=
  toLeBytes 4 tx.version ++
    varIntEncode tx.inputs.length ++
    (tx.inputs.map inputToVec).flatten ++
    varIntEncode tx.outputs.length ++
    (tx.outputs.map outputToVec).flatten ++
    toLeBytes 4 tx.lock_time

/-- Embedding of `read_bytes::<T>`: split off a fixed number of bytes,
failing when fewer remain. -/
def readBytes (size : Nat) (v : List Nat) : Option (List Nat × List Nat) :=
  if size ≤ v.length then some (v.take size, v.drop size) else none

/-- One iteration of the input-parsing loop of
`TryFrom<&[u8]> for Transaction`.  A parse error carries the remaining
bytes at the start of the field that could not be read (the Rust code
reports the pair `(len - remaining.len(), remaining)`; the offset is
reconstructed at top level from the remaining bytes). -/
def parseInput (p : List Nat) : Except (List Nat) (Input × List Nat) :=
  match readBytes 32 p with
  | none => .error p
  | some (txid, p1) =>
    match readBytes 4 p1 with
    | none => .error p1
    | some (indexBytes, p2) =>
      match readVarInt p2 with
      | none => .error p2
      | some (scriptLen, p3) =>
        if scriptLen ≤ p3.length then
          match readBytes 4 (p3.drop scriptLen) with
          | none => .error (p3.drop scriptLen)
          | some (seqBytes, p5) =>
            .ok ({ outpoint := { txid := txid, n := fromLeBytes indexBytes }
                   script := p3.take scriptLen
                   sequence_no := fromLeBytes seqBytes }, p5)
        else .error p3

/-- The input-parsing loop, iterated `count` times. -/
def parseInputs : Nat → List Nat → Except (List Nat) (List Input × List Nat)
  | 0, p => .ok ([], p)
  | count + 1, p =>
    match parseInput p with
    | .error r => .error r
    | .ok (i, p1) =>
      match parseInputs count p1 with
      | .error r => .error r
      | .ok (is, p2) => .ok (i :: is, p2)

/-- One iteration of the output-parsing loop of
`TryFrom<&[u8]> for Transaction`. -/
def parseOutput (p : List Nat) : Except (List Nat) (Output × List Nat) :=
  match readBytes 8 p with
  | none => .error p
  | some (valueBytes, p1) =>
    match readVarInt p1 with
    | none => .error p1
    | some (scriptLen, p2) =>
      if scriptLen ≤ p2.length then
        .ok ({ value := fromLeBytes valueBytes, script := p2.take scriptLen },
             p2.drop scriptLen)
      else .error p2

/-- The output-parsing loop, iterated `count` times. -/
def parseOutputs : Nat → List Nat → Except (List Nat) (List Output × List Nat)
  | 0, p => .ok ([], p)
  | count + 1, p =>
    match parseOutput p with
    | .error r => .error r
    | .ok (o, p1) =>
      match parseOutputs count p1 with
      | .error r => .error r
      | .ok (os, p2) => .ok (o :: os, p2)

/-- Embedding of `TryFrom<&[u8]> for Transaction`.  Every error is
`TxParseError (bytes.length - r.length) r` where `r` is the remaining
slice at the start of the field that could not be read, exactly as each
Rust error site computes `(len - remaining.len(), remaining.to_vec())`.
Bytes left over after the lock time are ignored, as in the source
(`let (lock_time, _) = …`). -/
def txTryFrom (bytes : List Nat) : Except Error Transaction :=
  let len := bytes.length
  match readBytes 4 bytes with
  | none => .error (.TxParseError 0 bytes)
  | some (versionBytes, p0) =>
    match readVarInt p0 with
    | none => .error (.TxParseError (len - p0.length) p0)
    | some (inCounter, p1) =>
      match parseInputs inCounter p1 with
      | .error r => .error (.TxParseError (len - r.length) r)
      | .ok (inputs, p2) =>
        match readVarInt p2 with
        | none => .error (.TxParseError (len - p2.length) p2)
        | some (outCounter, p3) =>
          match parseOutputs outCounter p3 with
          | .error r => .error (.TxParseError (len - r.length) r)
          | .ok (outputs, p4) =>
            match readBytes 4 p4 with
            | none => .error (.TxParseError (len - p4.length) p4)
            | some (lockTimeBytes, _) =>
              .ok { version := fromLeBytes versionBytes
                    inputs := inputs
                    outputs := outputs
                    lock_time := fromLeBytes lockTimeBytes }

/-! ## TxBuilder and digest engine (src/tx_builder.rs) -/

/-- Sighash flag constants from the `sig_hash` module. -/
def sigHashALL : Nat := 0x01

/-- Sighash flag NONE. -/
def sigHashNONE : Nat := 0x02

/-- Sighash flag SINGLE. -/
def sigHashSINGLE : Nat := 0x03

/-- Sighash flag FORKID. -/
def sigHashFORKID : Nat := 0x40

/-- Sighash flag ANYONECANPAY. -/
def sigHashANYONECANPAY : Nat := 0x80

/-- Embedding of `BitUtil::is_set`: the bitwise AND is nonzero. -/
def isSet (a target : Nat) : Bool :=
  decide (Nat.land a target ≠ 0)

/-- Transaction builder state (`struct TxBuilder`).  The address-parser
closure is not part of the state model: none of the verified operations
consult it.  The `HashMap<usize, Output>` side table is carried as an
association list where the most recent insertion shadows older entries. -/
structure TxBuilder where
  tx : Transaction
  prev_outputs : List (Nat × Output)
  fork_id : Nat
deriving DecidableEq, Repr

/-- Embedding of `TxBuilder::new`: empty transaction, empty side table,
fork id 0. -/
def TxBuilder.new : TxBuilder :=
  { tx := Transaction.new, prev_outputs := [], fork_id := 0 }

/-- Lookup in the side table (`HashMap::get`). -/
def hmGet (m : List (Nat × Output)) (k : Nat) : Option Output :=
  (m.find? fun e => e.1 == k).map Prod.snd

/-- Insertion into the side table (`HashMap::insert`): the new entry
shadows any older entry with the same key. -/
def hmInsert (m : List (Nat × Output)) (k : Nat) (v : Output) : List (Nat × Output) :=
  (k, v) :: m

/-- Embedding of `TxBuilder::add_input`: parse the previous transaction
id from hex, append an `Input` with empty unlocking script and
default/overridden sequence number, and record the previous output in the
side table when both `value` and `script` are supplied.  The hex parse is
the first statement; it can fail (malformed hex) or panic (decoded id
longer than 32 bytes) before any state is touched, so `fail` and
`panicked` outcomes leave the builder as it was. -/
def addInput (tb : TxBuilder) (txid : List Char) (index : Nat) (value : Option Nat)
    (script : Option (List Nat)) (sequence_no : Option Nat) : Outcome TxBuilder :=
  match u256FromStr txid with
  | .panicked => .panicked
  | .fail e => .fail e
  | .ok txidBytes =>
    let inputs1 := tb.tx.inputs ++ [Input.new txidBytes index sequence_no]
    let tb1 : TxBuilder := { tb with tx := { tb.tx with inputs := inputs1 } }
    if value.isSome ∧ script.isSome then
      .ok { tb1 with
              prev_outputs := hmInsert tb1.prev_outputs (inputs1.length - 1)
                (Output.new (value.getD 0) (script.getD [])) }
    else .ok tb1

/-- The `hash_prev_outs` binding of `witness_v0_hash`.  The double-SHA256
primitive `H(x) = SHA256(SHA256(x))` is abstracted as the function
parameter `h`; the bytes fed to it are the concatenated outpoints. -/
def hashPrevOuts (h : List Nat → List Nat) (tb : TxBuilder) (hash_type : Nat) : List Nat :=
  if isSet hash_type sigHashANYONECANPAY = false then
    h ((tb.tx.inputs.map fun i => i.outpoint.txid ++ toLeBytes 4 i.outpoint.n).flatten)
  else List.replicate 32 0

/-- The `hash_sequence` binding of `witness_v0_hash`. -/
def hashSequence (h : List Nat → List Nat) (tb : TxBuilder) (hash_type : Nat) : List Nat :=
  if isSet hash_type sigHashANYONECANPAY = false ∧
      Nat.land hash_type 0x1f ≠ sigHashSINGLE ∧
      Nat.land hash_type 0x1f ≠ sigHashNONE then
    h ((tb.tx.inputs.map fun i => toLeBytes 4 i.sequence_no).flatten)
  else List.replicate 32 0

/-- The `hash_outputs` binding of `witness_v0_hash`. -/
def hashOutputs (h : List Nat → List Nat) (tb : TxBuilder) (hash_type index : Nat) : List Nat :=
  if Nat.land hash_type 0x1f ≠ sigHashSINGLE ∧
      Nat.land hash_type 0x1f ≠ sigHashNONE then
    h ((tb.tx.outputs.map outputToVec).flatten)
  else if Nat.land hash_type 0x1f = sigHashSINGLE ∧ index < tb.tx.outputs.length then
    h (outputToVec (tb.tx.outputs.getD index (Output.new 0 [])))
  else List.replicate 32 0

/-- The previous-output resolution step of `witness_v0_hash`: the
explicit arguments are used only when both are present, otherwise the
side table is consulted. -/
def resolvePrev (tb : TxBuilder) (index : Nat) (prev_value : Option Nat)
    (prev_script : Option (List Nat)) : Option (Nat × List Nat) :=
  if prev_value.isSome ∧ prev_script.isSome then
    some (prev_value.getD 0, prev_script.getD [])
  else
    match hmGet tb.prev_outputs index with
    | some o => some (o.value, o.script)
    | none => none

/-- The byte string hashed by `witness_v0_hash` (the sighash preimage):
everything the final `Sha256::new().chain(…)…` pipeline feeds to the
double hash, with the two inner hashes abstracted as `h`.  Errors mirror
the source: `InvalidIndex` when neither explicit arguments nor a side
table entry provide the previous output, `InvalidIndex` when the input
index is out of range, and the error of `encode(&[Script::Data(…)])`
otherwise. -/
def witnessV0Preimage (h : List Nat → List Nat) (tb : TxBuilder) (hash_type index : Nat)
    (prev_value : Option Nat) (prev_script : Option (List Nat)) : Except Error (List Nat) :=
  match resolvePrev tb index prev_value prev_script with
  | none => .error (.InvalidIndex index)
  | some (pv, ps) =>
    match tb.tx.inputs[index]? with
    | none => .error (.InvalidIndex index)
    | some input =>
      match encode [Script.Data ps] with
      | .error e => .error e
      | .ok scriptCode =>
        .ok (toLeBytes 4 tb.tx.version ++
             hashPrevOuts h tb hash_type ++
             hashSequence h tb hash_type ++
             input.outpoint.txid ++
             toLeBytes 4 input.outpoint.n ++
             scriptCode ++
             toLeBytes 8 pv ++
             toLeBytes 4 input.sequence_no ++
             hashOutputs h tb hash_type index ++
             toLeBytes 4 tb.tx.lock_time ++
             toLeBytes 4 (Nat.lor (tb.fork_id * 2 ^ 8 % 2 ^ 32) hash_type))

/-- Embedding of `TxBuilder::witness_v0_hash`: the double hash of the
preimage. -/
def witnessV0Hash (h : List Nat → List Nat) (tb : TxBuilder) (hash_type index : Nat)
    (prev_value : Option Nat) (prev_script : Option (List Nat)) : Except Error (List Nat) :=
  match witnessV0Preimage h tb hash_type index prev_value prev_script with
  | .error e => .error e
  | .ok pre => .ok (h pre)

/-! ## Well-formedness and auxiliary notions used by the statements -/

instance {ε α : Type} [DecidableEq ε] [DecidableEq α] : DecidableEq (Except ε α) := fun x y =>
  match x, y with
  | .ok a, .ok b => if h : a = b then .isTrue (by rw [h]) else .isFalse (by simp [h])
  | .error a, .error b => if h : a = b then .isTrue (by rw [h]) else .isFalse (by simp [h])
  | .ok _, .error _ => .isFalse (by simp)
  | .error _, .ok _ => .isFalse (by simp)

/-- Structural invariants every `Input` built from the Rust types has:
the txid is a 32-byte array and the index, sequence number and script
length fit their machine integer types. -/
def WfInput (i : Input) : Prop :=
  i.outpoint.txid.length = 32 ∧ i.outpoint.n < 2 ^ 32 ∧
    i.sequence_no < 2 ^ 32 ∧ i.script.length < 2 ^ 64

instance (i : Input) : Decidable (WfInput i) := by unfold WfInput; exact inferInstance

/-- Structural invariants of an `Output`: value is a `u64`, script length
fits `usize`. -/
def WfOutput (o : Output) : Prop :=
  o.value < 2 ^ 64 ∧ o.script.length < 2 ^ 64

instance (o : Output) : Decidable (WfOutput o) := by unfold WfOutput; exact inferInstance

/-- Structural invariants of a `Transaction` as represented in Rust:
fixed-width fields fit their types, the element counts fit `usize`, and
every input and output is well formed. -/
def WfTx (tx : Transaction) : Prop :=
  tx.version < 2 ^ 32 ∧ tx.lock_time < 2 ^ 32 ∧
    tx.inputs.length < 2 ^ 64 ∧ tx.outputs.length < 2 ^ 64 ∧
    (∀ i ∈ tx.inputs, WfInput i) ∧ (∀ o ∈ tx.outputs, WfOutput o)

instance (tx : Transaction) : Decidable (WfTx tx) := by unfold WfTx; exact inferInstance

/-- Walk a list of field sizes and return the start offset of the field
containing position `m` (the first field not fully contained in the first
`m` bytes).  Used to state where a truncated parse fails. -/
def fsWalk : List Nat → Nat → Nat
  | [], _ => 0
  | sz :: rest, m => if sz ≤ m then sz + fsWalk rest (m - sz) else 0

/-- Sizes of the serialized fields of one input: txid, index, script
length prefix, script, sequence number. -/
def inputSizes (i : Input) : List Nat :=
  [32, 4, varIntLen i.script.length, i.script.length, 4]

/-- Sizes of the serialized fields of one output: value, script length
prefix, script. -/
def outputSizes (o : Output) : List Nat :=
  [8, varIntLen o.script.length, o.script.length]

/-- Sizes of every serialized field of a transaction, in wire order. -/
def txSizes (tx : Transaction) : List Nat :=
  [4, varIntLen tx.inputs.length] ++ (tx.inputs.map inputSizes).flatten ++
    [varIntLen tx.outputs.length] ++ (tx.outputs.map outputSizes).flatten ++ [4]

/-- Start offset of the serialized field of `tx` containing byte
position `L`. -/
def txFieldStart (tx : Transaction) (L : Nat) : Nat :=
  fsWalk (txSizes tx) L

/-- Spec definition for the push-length policy (§4.2), written from the
spec's priority-ordered wording with the amendment that a single byte
with value 0 also becomes the numeric zero opcode: length 0 → zero
opcode; length 1 with value 0..=16 → numeric opcode; length 1 with value
0x81 → negate-one opcode; length 1..=0x4b → literal length byte plus
data; then the three PUSHDATA forms; anything longer fails. -/
def pushDataSpec (data : List Nat) : Except Error (List Nat) :=
  if data.length = 0 then .ok [0x00]
  else if data.length = 1 ∧ data.headD 0 ≤ 16 then
    .ok (if data.headD 0 = 0 then [0x00] else [0x50 + data.headD 0])
  else if data.length = 1 ∧ data.headD 0 = 0x81 then .ok [0x4f]
  else if 1 ≤ data.length ∧ data.length ≤ 0x4b then .ok (data.length :: data)
  else if 0x4c ≤ data.length ∧ data.length ≤ 0xff then
    .ok ([0x4c, data.length] ++ data)
  else if 0x100 ≤ data.length ∧ data.length ≤ 0xffff then
    .ok ([0x4d, data.length % 256, data.length / 256 % 256] ++ data)
  else if 0x10000 ≤ data.length ∧ data.length ≤ 0xffffffff then
    .ok ([0x4e, data.length % 256, data.length / 256 % 256,
          data.length / 256 ^ 2 % 256, data.length / 256 ^ 3 % 256] ++ data)
  else .error (.InvalidLengthData data.length)

/-- A script element whose encoding re-decodes to itself: a data push
that is not a single byte with value 0..=16 or 0x81 (those take the
numeric-opcode short forms), and an opcode that is neither the numeric
zero opcode nor one of the PUSHDATA opcodes. -/
def canonicalElem : Script → Prop
  | .OpCode op => op ≠ .OP_0 ∧ op ≠ .OP_PUSHDATA1 ∧ op ≠ .OP_PUSHDATA2 ∧ op ≠ .OP_PUSHDATA4
  | .Data d => d.length = 1 → (16 < d.headD 0 ∧ d.headD 0 ≠ 0x81)

instance (s : Script) : Decidable (canonicalElem s) := by
  unfold canonicalElem
  match s with
  | .OpCode op => exact inferInstance
  | .Data d => exact inferInstance

/-- Placeholder double-hash used to instantiate the abstract hash
parameter in concrete counterexamples and witnesses: it returns 32 zero
bytes for every input, which has the output length of SHA256. -/
def hZero : List Nat → List Nat := fun _ => List.replicate 32 0

/-- Concrete one-input builder used by concrete instances: a single
input spending output 0 of the all-zero txid, no outputs, version 2,
lock time 0, empty side table, fork id 0. -/
def tbOne : TxBuilder :=
  { tx := { version := 2
            inputs := [Input.new (List.replicate 32 0) 0 none]
            outputs := []
            lock_time := 0 }
    prev_outputs := []
    fork_id := 0 }

/-! ## Basic lemmas about the byte-level primitives -/

theorem toLeBytes_length (w n : Nat) : (toLeBytes w n).length = w := by
  simp [toLeBytes]

theorem toLeBytes_succ (w n : Nat) :
    toLeBytes (w + 1) n = n % 256 :: toLeBytes w (n / 256) := by
  simp only [toLeBytes, List.range_succ_eq_map, List.map_cons, List.map_map]
  congr 1
  · simp
  · apply List.map_congr_left
    intro i _
    simp only [Function.comp_apply, Nat.succ_eq_add_one]
    rw [Nat.div_div_eq_div_mul, pow_succ, mul_comm]

theorem fromLeBytes_cons (b : Nat) (l : List Nat) :
    fromLeBytes (b :: l) = b + 256 * fromLeBytes l := rfl

theorem fromLeBytes_toLeBytes {w n : Nat} (h : n < 256 ^ w) :
    fromLeBytes (toLeBytes w n) = n := by
  induction w generalizing n with
  | zero =>
    simp only [pow_zero, Nat.lt_one_iff] at h
    simp [toLeBytes, fromLeBytes, h]
  | succ w ih =>
    rw [toLeBytes_succ, fromLeBytes_cons, ih]
    · omega
    · rw [pow_succ, mul_comm] at h
      exact Nat.div_lt_of_lt_mul h

theorem take_append_of_le {A B : List Nat} {m : Nat} (h : A.length ≤ m) :
    (A ++ B).take m = A ++ B.take (m - A.length) := by
  rw [List.take_append_eq_append_take, List.take_of_length_le h]

theorem readBytes_take {seg : List Nat} {n : Nat} (h : seg.length = n)
    (tail : List Nat) (m : Nat) :
    readBytes n ((seg ++ tail).take m) =
      if n ≤ m then some (seg, tail.take (m - n)) else none := by
  by_cases hm : n ≤ m
  · rw [if_pos hm, take_append_of_le (h ▸ hm), h]
    unfold readBytes
    rw [if_pos (by rw [List.length_append, h]; omega)]
    rw [List.take_left' h, List.drop_left' h]
  · rw [if_neg hm]
    unfold readBytes
    rw [if_neg]
    rw [List.length_take]
    omega

theorem readBytes_exact {seg : List Nat} {n : Nat} (h : seg.length = n)
    (tail : List Nat) : readBytes n (seg ++ tail) = some (seg, tail) := by
  unfold readBytes
  rw [if_pos (by rw [List.length_append, h]; omega), List.take_left' h,
    List.drop_left' h]

theorem varIntEncode_length (n : Nat) : (varIntEncode n).length = varIntLen n := by
  unfold varIntEncode varIntLen
  split_ifs <;> simp [toLeBytes_length]

theorem varIntTryFrom_cons (b : Nat) (r : List Nat) :
    varIntTryFrom (b :: r) =
      if b ≤ 0xfc then some b
      else if b = 0xfd then
        if 2 ≤ r.length then some (fromLeBytes (r.take 2)) else none
      else if b = 0xfe then
        if 4 ≤ r.length then some (fromLeBytes (r.take 4)) else none
      else if b = 0xff then
        if 8 ≤ r.length then some (fromLeBytes (r.take 8)) else none
      else none := rfl

theorem readVarInt_eq (v : List Nat) :
    readVarInt v = (varIntTryFrom v).map fun n => (n, v.drop (varIntLen n)) := by
  unfold readVarInt
  cases varIntTryFrom v <;> rfl

theorem readVarInt_take {n : Nat} (hn : n < 2 ^ 64) (tail : List Nat) (m : Nat) :
    readVarInt ((varIntEncode n ++ tail).take m) =
      if varIntLen n ≤ m then some (n, tail.take (m - varIntLen n)) else none := by
  by_cases h1 : n ≤ 0xfc
  · have he : varIntEncode n = [n] := by unfold varIntEncode; rw [if_pos h1]
    have hl : varIntLen n = 1 := by unfold varIntLen; rw [if_pos h1]
    rw [he, hl]
    match m with
    | 0 => simp [readVarInt, varIntTryFrom]
    | m + 1 =>
      simp only [List.cons_append, List.nil_append, List.take_succ_cons]
      rw [readVarInt_eq, varIntTryFrom_cons, if_pos h1]
      simp only [Option.map_some', hl, List.drop_succ_cons, List.drop_zero]
      rw [if_pos (by omega)]
      simp
  · by_cases h2 : n ≤ 0xffff
    · have he : varIntEncode n = 0xfd :: toLeBytes 2 n := by
        unfold varIntEncode; rw [if_neg h1, if_pos h2]
      have hl : varIntLen n = 3 := by
        unfold varIntLen; rw [if_neg h1, if_pos h2]
      rw [he, hl]
      match m with
      | 0 => simp [readVarInt, varIntTryFrom]
      | m + 1 =>
        simp only [List.cons_append, List.take_succ_cons]
        rw [readVarInt_eq, varIntTryFrom_cons,
          if_neg (by omega), if_pos rfl]
        by_cases hm : 2 ≤ m
        · rw [take_append_of_le (by rw [toLeBytes_length]; omega), toLeBytes_length]
          rw [if_pos (by rw [List.length_append, toLeBytes_length]; omega)]
          rw [List.take_left' (toLeBytes_length 2 n),
            fromLeBytes_toLeBytes (by omega)]
          simp only [Option.map_some', hl, List.drop_succ_cons]
          rw [List.drop_left' (toLeBytes_length 2 n)]
          rw [if_pos (by omega)]
          simp only [Option.some.injEq, Prod.mk.injEq, true_and]
          congr 1
        · rw [if_neg (by rw [List.length_take, List.length_append, toLeBytes_length]; omega)]
          rw [if_neg (by omega)]
          rfl
    · by_cases h3 : n ≤ 0xffffffff
      · have he : varIntEncode n = 0xfe :: toLeBytes 4 n := by
          unfold varIntEncode; rw [if_neg h1, if_neg h2, if_pos h3]
        have hl : varIntLen n = 5 := by
          unfold varIntLen; rw [if_neg h1, if_neg h2, if_pos h3]
        rw [he, hl]
        match m with
        | 0 => simp [readVarInt, varIntTryFrom]
        | m + 1 =>
          simp only [List.cons_append, List.take_succ_cons]
          rw [readVarInt_eq, varIntTryFrom_cons,
            if_neg (by omega), if_neg (by omega), if_pos rfl]
          by_cases hm : 4 ≤ m
          · rw [take_append_of_le (by rw [toLeBytes_length]; omega), toLeBytes_length]
            rw [if_pos (by rw [List.length_append, toLeBytes_length]; omega)]
            rw [List.take_left' (toLeBytes_length 4 n),
              fromLeBytes_toLeBytes (by omega)]
            simp only [Option.map_some', hl, List.drop_succ_cons]
            rw [List.drop_left' (toLeBytes_length 4 n)]
            rw [if_pos (by omega)]
            simp only [Option.some.injEq, Prod.mk.injEq, true_and]
            congr 1
          · rw [if_neg (by rw [List.length_take, List.length_append, toLeBytes_length]; omega)]
            rw [if_neg (by omega)]
            rfl
      · have he : varIntEncode n = 0xff :: toLeBytes 8 n := by
          unfold varIntEncode; rw [if_neg h1, if_neg h2, if_neg h3]
        have hl : varIntLen n = 9 := by
          unfold varIntLen; rw [if_neg h1, if_neg h2, if_neg h3]
        rw [he, hl]
        match m with
        | 0 => simp [readVarInt, varIntTryFrom]
        | m + 1 =>
          simp only [List.cons_append, List.take_succ_cons]
          rw [readVarInt_eq, varIntTryFrom_cons,
            if_neg (by omega), if_neg (by omega), if_neg (by omega), if_pos rfl]
          by_cases hm : 8 ≤ m
          · rw [take_append_of_le (by rw [toLeBytes_length]; omega), toLeBytes_length]
            rw [if_pos (by rw [List.length_append, toLeBytes_length]; omega)]
            rw [List.take_left' (toLeBytes_length 8 n),
              fromLeBytes_toLeBytes (by norm_num only at hn ⊢; omega)]
            simp only [Option.map_some', hl, List.drop_succ_cons]
            rw [List.drop_left' (toLeBytes_length 8 n)]
            rw [if_pos (by omega)]
            simp only [Option.some.injEq, Prod.mk.injEq, true_and]
            congr 1
          · rw [if_neg (by rw [List.length_take, List.length_append, toLeBytes_length]; omega)]
            rw [if_neg (by omega)]
            rfl

theorem readVarInt_exact {n : Nat} (hn : n < 2 ^ 64) (tail : List Nat) :
    readVarInt (varIntEncode n ++ tail) = some (n, tail) := by
  have h := readVarInt_take hn tail (varIntEncode n ++ tail).length
  rw [List.take_of_length_le (le_refl _)] at h
  rw [h, if_pos]
  · congr 1
    rw [List.length_append, varIntEncode_length]
    simp only [Prod.mk.injEq, true_and]
    rw [Nat.add_comm, Nat.add_sub_cancel]
    exact List.take_of_length_le (le_refl _)
  · rw [List.length_append, varIntEncode_length]
    omega

theorem drop_take_append {A B : List Nat} {a m k : Nat} (h : A.length = a) (hm : a ≤ m) :
    ((A ++ B).take m).drop (a + k) = (B.take (m - a)).drop k := by
  rw [take_append_of_le (h ▸ hm), h]
  rw [List.drop_append_eq_append_drop, List.drop_eq_nil_of_le (by omega), h,
    List.nil_append]
  congr 1
  omega

theorem fsWalk_cons (sz : Nat) (rest : List Nat) (m : Nat) :
    fsWalk (sz :: rest) m = if sz ≤ m then sz + fsWalk rest (m - sz) else 0 := rfl

theorem inputSizes_sum (i : Input) :
    (inputSizes i).sum = 40 + varIntLen i.script.length + i.script.length := by
  simp [inputSizes]
  omega

theorem outputSizes_sum (o : Output) :
    (outputSizes o).sum = 8 + varIntLen o.script.length + o.script.length := by
  simp [outputSizes]
  omega

theorem inputToVec_assoc (i : Input) (tail : List Nat) :
    inputToVec i ++ tail =
      i.outpoint.txid ++ (toLeBytes 4 i.outpoint.n ++ (varIntEncode i.script.length ++
        (i.script ++ (toLeBytes 4 i.sequence_no ++ tail)))) := by
  simp [inputToVec, outPointToVec, List.append_assoc]

theorem outputToVec_assoc (o : Output) (tail : List Nat) :
    outputToVec o ++ tail =
      toLeBytes 8 o.value ++ (varIntEncode o.script.length ++ (o.script ++ tail)) := by
  simp [outputToVec, List.append_assoc]

theorem parseInput_take (i : Input) (hwf : WfInput i) (tail : List Nat) (m : Nat) :
    parseInput ((inputToVec i ++ tail).take m) =
      if (inputSizes i).sum ≤ m then .ok (i, tail.take (m - (inputSizes i).sum))
      else .error (((inputToVec i ++ tail).take m).drop (fsWalk (inputSizes i) m)) := by
  obtain ⟨h32, hn, hseq, hslu⟩ := hwf
  have hsum := inputSizes_sum i
  rw [inputToVec_assoc]
  by_cases c1 : 32 ≤ m
  · have e1 := readBytes_take h32 (toLeBytes 4 i.outpoint.n ++ (varIntEncode i.script.length ++
      (i.script ++ (toLeBytes 4 i.sequence_no ++ tail)))) m
    rw [if_pos c1] at e1
    by_cases c2 : 4 ≤ m - 32
    · have e2 := readBytes_take (toLeBytes_length 4 i.outpoint.n) (varIntEncode i.script.length ++
        (i.script ++ (toLeBytes 4 i.sequence_no ++ tail))) (m - 32)
      rw [if_pos c2] at e2
      have h36 : m - 32 - 4 = m - 36 := by omega
      rw [h36] at e2
      by_cases c3 : varIntLen i.script.length ≤ m - 36
      · have e3 := readVarInt_take hslu (i.script ++ (toLeBytes 4 i.sequence_no ++ tail)) (m - 36)
        rw [if_pos c3] at e3
        by_cases c4 : i.script.length ≤ m - 36 - varIntLen i.script.length
        · have hp3len : i.script.length ≤
              (((i.script ++ (toLeBytes 4 i.sequence_no ++ tail))).take
                (m - 36 - varIntLen i.script.length)).length := by
            rw [List.length_take]
            simp only [List.length_append, le_min_iff]
            exact ⟨c4, by omega⟩
          have htake : (((i.script ++ (toLeBytes 4 i.sequence_no ++ tail))).take
              (m - 36 - varIntLen i.script.length)).take i.script.length = i.script := by
            rw [List.take_take, min_eq_left c4, take_append_of_le (le_refl _),
              Nat.sub_self, List.take_zero, List.append_nil]
          have hdrop : (((i.script ++ (toLeBytes 4 i.sequence_no ++ tail))).take
              (m - 36 - varIntLen i.script.length)).drop i.script.length =
              (toLeBytes 4 i.sequence_no ++ tail).take
                (m - 36 - varIntLen i.script.length - i.script.length) := by
            rw [List.drop_take, List.drop_left' rfl]
          by_cases c5 : 4 ≤ m - 36 - varIntLen i.script.length - i.script.length
          · have e5 := readBytes_take (toLeBytes_length 4 i.sequence_no) tail
              (m - 36 - varIntLen i.script.length - i.script.length)
            rw [if_pos c5] at e5
            rw [if_pos (by omega)]
            simp only [parseInput, e1, e2, e3]
            rw [if_pos hp3len]
            rw [hdrop, e5]
            simp only [Except.ok.injEq, Prod.mk.injEq]
            constructor
            · rw [htake]
              rw [fromLeBytes_toLeBytes (by norm_num only; omega),
                fromLeBytes_toLeBytes (by norm_num only; omega)]
            · congr 1
              omega
          · rw [if_neg (by omega)]
            simp only [parseInput, e1, e2, e3]
            rw [if_pos hp3len, hdrop]
            have e5 := readBytes_take (toLeBytes_length 4 i.sequence_no) tail
              (m - 36 - varIntLen i.script.length - i.script.length)
            rw [if_neg c5] at e5
            rw [e5]
            have hfs : fsWalk (inputSizes i) m = 36 + varIntLen i.script.length +
                i.script.length := by
              simp only [inputSizes, fsWalk_cons]
              rw [if_pos c1, if_pos c2, if_pos (by omega), if_pos (by omega),
                if_neg (by omega)]
              omega
            rw [hfs]
            have : (36 : Nat) + varIntLen i.script.length + i.script.length =
                32 + (4 + (varIntLen i.script.length + (i.script.length + 0))) := by omega
            rw [this, drop_take_append h32 c1,
              drop_take_append (toLeBytes_length 4 i.outpoint.n) c2, h36,
              drop_take_append (varIntEncode_length i.script.length ▸ rfl) c3,
              drop_take_append (rfl : i.script.length = i.script.length) c4,
              List.drop_zero]
        · rw [if_neg (by omega)]
          simp only [parseInput, e1, e2, e3]
          rw [if_neg (by
            rw [List.length_take]
            simp only [List.length_append]
            omega)]
          have hfs : fsWalk (inputSizes i) m = 36 + varIntLen i.script.length := by
            simp only [inputSizes, fsWalk_cons]
            rw [if_pos c1, if_pos c2, if_pos (by omega), if_neg (by omega)]
            omega
          rw [hfs]
          have : (36 : Nat) + varIntLen i.script.length =
              32 + (4 + (varIntLen i.script.length + 0)) := by omega
          rw [this, drop_take_append h32 c1,
            drop_take_append (toLeBytes_length 4 i.outpoint.n) c2, h36,
            drop_take_append (varIntEncode_length i.script.length ▸ rfl) c3,
            List.drop_zero]
      · have e3 := readVarInt_take hslu (i.script ++ (toLeBytes 4 i.sequence_no ++ tail)) (m - 36)
        rw [if_neg c3] at e3
        rw [if_neg (by omega)]
        simp only [parseInput, e1, e2, e3]
        have hfs : fsWalk (inputSizes i) m = 36 := by
          simp only [inputSizes, fsWalk_cons]
          rw [if_pos c1, if_pos c2, if_neg (by omega)]
        rw [hfs]
        have : (36 : Nat) = 32 + (4 + 0) := by omega
        rw [this, drop_take_append h32 c1,
          drop_take_append (toLeBytes_length 4 i.outpoint.n) c2, h36, List.drop_zero]
    · have e2 := readBytes_take (toLeBytes_length 4 i.outpoint.n) (varIntEncode i.script.length ++
        (i.script ++ (toLeBytes 4 i.sequence_no ++ tail))) (m - 32)
      rw [if_neg c2] at e2
      rw [if_neg (by omega)]
      simp only [parseInput, e1, e2]
      have hfs : fsWalk (inputSizes i) m = 32 := by
        simp only [inputSizes, fsWalk_cons]
        rw [if_pos c1, if_neg (by omega)]
      rw [hfs]
      have : (32 : Nat) = 32 + 0 := by omega
      rw [this, drop_take_append h32 c1, List.drop_zero]
  · have e1 := readBytes_take h32 (toLeBytes 4 i.outpoint.n ++ (varIntEncode i.script.length ++
      (i.script ++ (toLeBytes 4 i.sequence_no ++ tail)))) m
    rw [if_neg c1] at e1
    rw [if_neg (by omega)]
    simp only [parseInput, e1]
    have hfs : fsWalk (inputSizes i) m = 0 := by
      simp only [inputSizes, fsWalk_cons]
      rw [if_neg (by omega)]
    rw [hfs, List.drop_zero]

theorem parseOutput_take (o : Output) (hwf : WfOutput o) (tail : List Nat) (m : Nat) :
    parseOutput ((outputToVec o ++ tail).take m) =
      if (outputSizes o).sum ≤ m then .ok (o, tail.take (m - (outputSizes o).sum))
      else .error (((outputToVec o ++ tail).take m).drop (fsWalk (outputSizes o) m)) := by
  obtain ⟨hval, hslu⟩ := hwf
  have hsum := outputSizes_sum o
  rw [outputToVec_assoc]
  by_cases c1 : 8 ≤ m
  · have e1 := readBytes_take (toLeBytes_length 8 o.value)
      (varIntEncode o.script.length ++ (o.script ++ tail)) m
    rw [if_pos c1] at e1
    by_cases c2 : varIntLen o.script.length ≤ m - 8
    · have e2 := readVarInt_take hslu (o.script ++ tail) (m - 8)
      rw [if_pos c2] at e2
      by_cases c3 : o.script.length ≤ m - 8 - varIntLen o.script.length
      · have hp2len : o.script.length ≤
            ((o.script ++ tail).take (m - 8 - varIntLen o.script.length)).length := by
          rw [List.length_take]
          simp only [List.length_append, le_min_iff]
          exact ⟨c3, by omega⟩
        have htake : ((o.script ++ tail).take
            (m - 8 - varIntLen o.script.length)).take o.script.length = o.script := by
          rw [List.take_take, min_eq_left c3, take_append_of_le (le_refl _),
            Nat.sub_self, List.take_zero, List.append_nil]
        have hdrop : ((o.script ++ tail).take
            (m - 8 - varIntLen o.script.length)).drop o.script.length =
            tail.take (m - 8 - varIntLen o.script.length - o.script.length) := by
          rw [List.drop_take, List.drop_left' rfl]
        rw [if_pos (by omega)]
        simp only [parseOutput, e1, e2]
        rw [if_pos hp2len, htake, hdrop,
          fromLeBytes_toLeBytes (by norm_num only; omega)]
        simp only [Except.ok.injEq, Prod.mk.injEq, true_and]
        congr 1
        omega
      · rw [if_neg (by omega)]
        simp only [parseOutput, e1, e2]
        rw [if_neg (by
          rw [List.length_take]
          simp only [List.length_append]
          omega)]
        have hfs : fsWalk (outputSizes o) m = 8 + varIntLen o.script.length := by
          simp only [outputSizes, fsWalk_cons]
          rw [if_pos c1, if_pos (by omega), if_neg (by omega)]
          omega
        rw [hfs]
        have : (8 : Nat) + varIntLen o.script.length =
            8 + (varIntLen o.script.length + 0) := by omega
        rw [this, drop_take_append (toLeBytes_length 8 o.value) c1,
          drop_take_append (varIntEncode_length o.script.length ▸ rfl) c2,
          List.drop_zero]
    · have e2 := readVarInt_take hslu (o.script ++ tail) (m - 8)
      rw [if_neg c2] at e2
      rw [if_neg (by omega)]
      simp only [parseOutput, e1, e2]
      have hfs : fsWalk (outputSizes o) m = 8 := by
        simp only [outputSizes, fsWalk_cons]
        rw [if_pos c1, if_neg (by omega)]
      rw [hfs]
      have : (8 : Nat) = 8 + 0 := by omega
      rw [this, drop_take_append (toLeBytes_length 8 o.value) c1, List.drop_zero]
  · have e1 := readBytes_take (toLeBytes_length 8 o.value)
      (varIntEncode o.script.length ++ (o.script ++ tail)) m
    rw [if_neg c1] at e1
    rw [if_neg (by omega)]
    simp only [parseOutput, e1]
    have hfs : fsWalk (outputSizes o) m = 0 := by
      simp only [outputSizes, fsWalk_cons]
      rw [if_neg (by omega)]
    rw [hfs, List.drop_zero]

theorem fsWalk_append (a b : List Nat) (m : Nat) :
    fsWalk (a ++ b) m = if a.sum ≤ m then a.sum + fsWalk b (m - a.sum) else fsWalk a m := by
  induction a generalizing m with
  | nil => simp [fsWalk]
  | cons sz rest ih =>
    simp only [List.cons_append, fsWalk_cons, List.sum_cons]
    by_cases h1 : sz ≤ m
    · rw [if_pos h1, ih (m - sz)]
      by_cases h2 : rest.sum ≤ m - sz
      · rw [if_pos h2, if_pos (by omega)]
        have h3 : m - sz - rest.sum = m - (sz + rest.sum) := by omega
        rw [h3]
        omega
      · rw [if_neg h2, if_neg (by omega), if_pos h1]
    · rw [if_neg h1, if_neg (by omega), if_neg h1]

theorem inputToVec_length (i : Input) (hwf : WfInput i) :
    (inputToVec i).length = (inputSizes i).sum := by
  rw [inputSizes_sum]
  simp [inputToVec, outPointToVec, varIntEncode_length, toLeBytes_length, hwf.1]
  omega

theorem outputToVec_length (o : Output) :
    (outputToVec o).length = (outputSizes o).sum := by
  rw [outputSizes_sum]
  simp [outputToVec, varIntEncode_length, toLeBytes_length]
  omega

theorem flatten_inputToVec_length (is : List Input) (hwf : ∀ i ∈ is, WfInput i) :
    ((is.map inputToVec).flatten).length = ((is.map inputSizes).flatten).sum := by
  induction is with
  | nil => simp
  | cons i rest ih =>
    simp only [List.map_cons, List.flatten_cons, List.length_append, List.sum_append]
    rw [inputToVec_length i (hwf i (by simp)), ih (fun j hj => hwf j (by simp [hj]))]

theorem flatten_outputToVec_length (os : List Output) :
    ((os.map outputToVec).flatten).length = ((os.map outputSizes).flatten).sum := by
  induction os with
  | nil => simp
  | cons o rest ih =>
    simp only [List.map_cons, List.flatten_cons, List.length_append, List.sum_append]
    rw [outputToVec_length o, ih]

theorem parseInputs_take (is : List Input) (hwf : ∀ i ∈ is, WfInput i)
    (tail : List Nat) (m : Nat) :
    parseInputs is.length (((is.map inputToVec).flatten ++ tail).take m) =
      if ((is.map inputSizes).flatten).sum ≤ m then
        .ok (is, tail.take (m - ((is.map inputSizes).flatten).sum))
      else .error ((((is.map inputToVec).flatten ++ tail).take m).drop
        (fsWalk ((is.map inputSizes).flatten) m)) := by
  induction is generalizing tail m with
  | nil => simp [parseInputs, fsWalk]
  | cons i rest ih =>
    have hwi : WfInput i := hwf i (by simp)
    have hwr : ∀ j ∈ rest, WfInput j := fun j hj => hwf j (by simp [hj])
    simp only [List.map_cons, List.flatten_cons, List.length_cons, List.sum_append,
      List.append_assoc]
    have eHead := parseInput_take i hwi ((rest.map inputToVec).flatten ++ tail) m
    by_cases cA : (inputSizes i).sum ≤ m
    · rw [if_pos cA] at eHead
      have eTail := ih hwr tail (m - (inputSizes i).sum)
      by_cases cB : ((rest.map inputSizes).flatten).sum ≤ m - (inputSizes i).sum
      · rw [if_pos cB] at eTail
        simp only [parseInputs, eHead, eTail]
        rw [if_pos (by omega)]
        simp only [Except.ok.injEq, Prod.mk.injEq, true_and]
        congr 1
        omega
      · rw [if_neg cB] at eTail
        simp only [parseInputs, eHead, eTail]
        rw [if_neg (by omega)]
        congr 1
        rw [fsWalk_append, if_pos cA,
          drop_take_append (inputToVec_length i hwi) cA]
    · rw [if_neg cA] at eHead
      simp only [parseInputs, eHead]
      rw [if_neg (by omega)]
      congr 1
      rw [fsWalk_append, if_neg cA]

theorem parseOutputs_take (os : List Output) (hwf : ∀ o ∈ os, WfOutput o)
    (tail : List Nat) (m : Nat) :
    parseOutputs os.length (((os.map outputToVec).flatten ++ tail).take m) =
      if ((os.map outputSizes).flatten).sum ≤ m then
        .ok (os, tail.take (m - ((os.map outputSizes).flatten).sum))
      else .error ((((os.map outputToVec).flatten ++ tail).take m).drop
        (fsWalk ((os.map outputSizes).flatten) m)) := by
  induction os generalizing tail m with
  | nil => simp [parseOutputs, fsWalk]
  | cons o rest ih =>
    have hwo : WfOutput o := hwf o (by simp)
    have hwr : ∀ j ∈ rest, WfOutput j := fun j hj => hwf j (by simp [hj])
    simp only [List.map_cons, List.flatten_cons, List.length_cons, List.sum_append,
      List.append_assoc]
    have eHead := parseOutput_take o hwo ((rest.map outputToVec).flatten ++ tail) m
    by_cases cA : (outputSizes o).sum ≤ m
    · rw [if_pos cA] at eHead
      have eTail := ih hwr tail (m - (outputSizes o).sum)
      by_cases cB : ((rest.map outputSizes).flatten).sum ≤ m - (outputSizes o).sum
      · rw [if_pos cB] at eTail
        simp only [parseOutputs, eHead, eTail]
        rw [if_pos (by omega)]
        simp only [Except.ok.injEq, Prod.mk.injEq, true_and]
        congr 1
        omega
      · rw [if_neg cB] at eTail
        simp only [parseOutputs, eHead, eTail]
        rw [if_neg (by omega)]
        congr 1
        rw [fsWalk_append, if_pos cA,
          drop_take_append (outputToVec_length o) cA]
    · rw [if_neg cA] at eHead
      simp only [parseOutputs, eHead]
      rw [if_neg (by omega)]
      congr 1
      rw [fsWalk_append, if_neg cA]

theorem readBytes_all {v : List Nat} {n : Nat} (h : v.length = n) :
    readBytes n v = some (v, []) := by
  unfold readBytes
  rw [if_pos (by omega), ← h, List.take_length, List.drop_length]

theorem parseInputs_exact (is : List Input) (hwf : ∀ i ∈ is, WfInput i)
    (tail : List Nat) :
    parseInputs is.length ((is.map inputToVec).flatten ++ tail) = .ok (is, tail) := by
  have h := parseInputs_take is hwf tail ((is.map inputToVec).flatten ++ tail).length
  rw [List.take_length] at h
  rw [h, if_pos (by
    rw [List.length_append, flatten_inputToVec_length is hwf]
    omega)]
  congr 1
  rw [List.length_append, flatten_inputToVec_length is hwf]
  have h2 : ((is.map inputSizes).flatten).sum + tail.length -
      ((is.map inputSizes).flatten).sum = tail.length := by omega
  rw [h2, List.take_length]

theorem parseOutputs_exact (os : List Output) (hwf : ∀ o ∈ os, WfOutput o)
    (tail : List Nat) :
    parseOutputs os.length ((os.map outputToVec).flatten ++ tail) = .ok (os, tail) := by
  have h := parseOutputs_take os hwf tail ((os.map outputToVec).flatten ++ tail).length
  rw [List.take_length] at h
  rw [h, if_pos (by
    rw [List.length_append, flatten_outputToVec_length os]
    omega)]
  congr 1
  rw [List.length_append, flatten_outputToVec_length os]
  have h2 : ((os.map outputSizes).flatten).sum + tail.length -
      ((os.map outputSizes).flatten).sum = tail.length := by omega
  rw [h2, List.take_length]

theorem txToVec_assoc (tx : Transaction) :
    txToVec tx = toLeBytes 4 tx.version ++ (varIntEncode tx.inputs.length ++
      ((tx.inputs.map inputToVec).flatten ++ (varIntEncode tx.outputs.length ++
        ((tx.outputs.map outputToVec).flatten ++ toLeBytes 4 tx.lock_time)))) := by
  simp [txToVec, List.append_assoc]

theorem txTryFrom_toVec (tx : Transaction) (hwf : WfTx tx) :
    txTryFrom (txToVec tx) = .ok tx := by
  obtain ⟨hv, hl, hnin, hnout, hwin, hwout⟩ := hwf
  obtain ⟨version, inputs, outputs, lock_time⟩ := tx
  simp only at hv hl hnin hnout hwin hwout
  rw [txToVec_assoc]
  simp only
  have e1 := readBytes_exact (toLeBytes_length 4 version)
    (varIntEncode inputs.length ++ ((inputs.map inputToVec).flatten ++
      (varIntEncode outputs.length ++ ((outputs.map outputToVec).flatten ++
        toLeBytes 4 lock_time))))
  have e2 := readVarInt_exact hnin
    ((inputs.map inputToVec).flatten ++ (varIntEncode outputs.length ++
      ((outputs.map outputToVec).flatten ++ toLeBytes 4 lock_time)))
  have e3 := parseInputs_exact inputs hwin
    (varIntEncode outputs.length ++ ((outputs.map outputToVec).flatten ++
      toLeBytes 4 lock_time))
  have e4 := readVarInt_exact hnout
    ((outputs.map outputToVec).flatten ++ toLeBytes 4 lock_time)
  have e5 := parseOutputs_exact outputs hwout (toLeBytes 4 lock_time)
  have e6 := readBytes_all (toLeBytes_length 4 lock_time)
  simp only [txTryFrom, e1, e2, e3, e4, e5, e6]
  rw [fromLeBytes_toLeBytes (by norm_num only; omega),
    fromLeBytes_toLeBytes (by norm_num only; omega)]

theorem fsWalk_le (sizes : List Nat) (m : Nat) : fsWalk sizes m ≤ m := by
  induction sizes generalizing m with
  | nil => simp [fsWalk]
  | cons sz rest ih =>
    rw [fsWalk_cons]
    by_cases h : sz ≤ m
    · rw [if_pos h]
      have := ih (m - sz)
      omega
    · rw [if_neg h]
      omega

theorem txSizes_sum (tx : Transaction) :
    (txSizes tx).sum = 8 + varIntLen tx.inputs.length +
      ((tx.inputs.map inputSizes).flatten).sum + varIntLen tx.outputs.length +
      ((tx.outputs.map outputSizes).flatten).sum := by
  simp [txSizes, List.sum_append]
  omega

theorem txToVec_length (tx : Transaction) (hwf : WfTx tx) :
    (txToVec tx).length = (txSizes tx).sum := by
  obtain ⟨hv, hl, hnin, hnout, hwin, hwout⟩ := hwf
  rw [txSizes_sum]
  simp [txToVec, List.length_append, toLeBytes_length, varIntEncode_length,
    flatten_inputToVec_length tx.inputs hwin, flatten_outputToVec_length tx.outputs]
  omega

theorem txSizes_assoc (tx : Transaction) :
    txSizes tx = 4 :: varIntLen tx.inputs.length ::
      ((tx.inputs.map inputSizes).flatten ++ (varIntLen tx.outputs.length ::
        ((tx.outputs.map outputSizes).flatten ++ [4]))) := by
  simp [txSizes, List.append_assoc]

theorem txTryFrom_take (tx : Transaction) (hwf : WfTx tx) (L : Nat)
    (hL : L < (txToVec tx).length) :
    txTryFrom ((txToVec tx).take L) =
      .error (.TxParseError (txFieldStart tx L)
        (((txToVec tx).take L).drop (txFieldStart tx L))) := by
  have hlen := txToVec_length tx hwf
  have hsums := txSizes_sum tx
  obtain ⟨hv, hl, hnin, hnout, hwin, hwout⟩ := hwf
  have hF1 := flatten_inputToVec_length tx.inputs hwin
  have hF2 := flatten_outputToVec_length tx.outputs
  rw [txToVec_assoc tx] at hL ⊢
  have htot : (toLeBytes 4 tx.version ++ (varIntEncode tx.inputs.length ++
      ((tx.inputs.map inputToVec).flatten ++ (varIntEncode tx.outputs.length ++
        ((tx.outputs.map outputToVec).flatten ++ toLeBytes 4 tx.lock_time))))).length =
      8 + varIntLen tx.inputs.length + ((tx.inputs.map inputSizes).flatten).sum +
        varIntLen tx.outputs.length + ((tx.outputs.map outputSizes).flatten).sum := by
    simp [List.length_append, toLeBytes_length, varIntEncode_length, hF1, hF2]
    omega
  rw [htot] at hL
  have hBL : ((toLeBytes 4 tx.version ++ (varIntEncode tx.inputs.length ++
      ((tx.inputs.map inputToVec).flatten ++ (varIntEncode tx.outputs.length ++
        ((tx.outputs.map outputToVec).flatten ++ toLeBytes 4 tx.lock_time))))).take L).length =
      L := by
    rw [List.length_take, htot]
    omega
  have e1 := readBytes_take (toLeBytes_length 4 tx.version)
    (varIntEncode tx.inputs.length ++ ((tx.inputs.map inputToVec).flatten ++
      (varIntEncode tx.outputs.length ++ ((tx.outputs.map outputToVec).flatten ++
        toLeBytes 4 tx.lock_time)))) L
  by_cases d1 : 4 ≤ L
  · rw [if_pos d1] at e1
    have e2 := readVarInt_take hnin
      ((tx.inputs.map inputToVec).flatten ++ (varIntEncode tx.outputs.length ++
        ((tx.outputs.map outputToVec).flatten ++ toLeBytes 4 tx.lock_time))) (L - 4)
    by_cases d2 : varIntLen tx.inputs.length ≤ L - 4
    · rw [if_pos d2] at e2
      have e3 := parseInputs_take tx.inputs hwin
        (varIntEncode tx.outputs.length ++ ((tx.outputs.map outputToVec).flatten ++
          toLeBytes 4 tx.lock_time)) (L - 4 - varIntLen tx.inputs.length)
      by_cases d3 : ((tx.inputs.map inputSizes).flatten).sum ≤
          L - 4 - varIntLen tx.inputs.length
      · rw [if_pos d3] at e3
        have e4 := readVarInt_take hnout
          ((tx.outputs.map outputToVec).flatten ++ toLeBytes 4 tx.lock_time)
          (L - 4 - varIntLen tx.inputs.length - ((tx.inputs.map inputSizes).flatten).sum)
        by_cases d4 : varIntLen tx.outputs.length ≤
            L - 4 - varIntLen tx.inputs.length - ((tx.inputs.map inputSizes).flatten).sum
        · rw [if_pos d4] at e4
          have e5 := parseOutputs_take tx.outputs hwout (toLeBytes 4 tx.lock_time)
            (L - 4 - varIntLen tx.inputs.length - ((tx.inputs.map inputSizes).flatten).sum -
              varIntLen tx.outputs.length)
          by_cases d5 : ((tx.outputs.map outputSizes).flatten).sum ≤
              L - 4 - varIntLen tx.inputs.length - ((tx.inputs.map inputSizes).flatten).sum -
                varIntLen tx.outputs.length
          · rw [if_pos d5] at e5
            have e6 : readBytes 4 ((toLeBytes 4 tx.lock_time).take
                (L - 4 - varIntLen tx.inputs.length -
                  ((tx.inputs.map inputSizes).flatten).sum - varIntLen tx.outputs.length -
                  ((tx.outputs.map outputSizes).flatten).sum)) = none := by
              unfold readBytes
              rw [if_neg]
              rw [List.length_take, toLeBytes_length]
              omega
            simp only [txTryFrom, e1, e2, e3, e4, e5, e6]
            have hfs : txFieldStart tx L = 4 + (varIntLen tx.inputs.length +
                (((tx.inputs.map inputSizes).flatten).sum + (varIntLen tx.outputs.length +
                  (((tx.outputs.map outputSizes).flatten).sum + 0)))) := by
              rw [txFieldStart, txSizes_assoc, fsWalk_cons, if_pos d1, fsWalk_cons,
                if_pos d2, fsWalk_append, if_pos d3, fsWalk_cons, if_pos d4,
                fsWalk_append, if_pos d5, fsWalk_cons, if_neg (by omega)]
            rw [hfs]
            rw [drop_take_append (toLeBytes_length 4 tx.version) d1,
              drop_take_append (varIntEncode_length tx.inputs.length) d2,
              drop_take_append hF1 d3,
              drop_take_append (varIntEncode_length tx.outputs.length) d4,
              drop_take_append hF2 d5, List.drop_zero]
            congr 2
            rw [hBL, List.length_take, toLeBytes_length]
            omega
          · rw [if_neg d5] at e5
            simp only [txTryFrom, e1, e2, e3, e4, e5]
            have hfs : txFieldStart tx L = 4 + (varIntLen tx.inputs.length +
                (((tx.inputs.map inputSizes).flatten).sum + (varIntLen tx.outputs.length +
                  fsWalk ((tx.outputs.map outputSizes).flatten)
                    (L - 4 - varIntLen tx.inputs.length -
                      ((tx.inputs.map inputSizes).flatten).sum -
                      varIntLen tx.outputs.length)))) := by
              rw [txFieldStart, txSizes_assoc, fsWalk_cons, if_pos d1, fsWalk_cons,
                if_pos d2, fsWalk_append, if_pos d3, fsWalk_cons, if_pos d4,
                fsWalk_append, if_neg d5]
            rw [hfs]
            rw [drop_take_append (toLeBytes_length 4 tx.version) d1,
              drop_take_append (varIntEncode_length tx.inputs.length) d2,
              drop_take_append hF1 d3,
              drop_take_append (varIntEncode_length tx.outputs.length) d4]
            congr 2
            have hw := fsWalk_le ((tx.outputs.map outputSizes).flatten)
              (L - 4 - varIntLen tx.inputs.length -
                ((tx.inputs.map inputSizes).flatten).sum - varIntLen tx.outputs.length)
            rw [hBL, List.length_drop, List.length_take, List.length_append, hF2,
              toLeBytes_length]
            omega
        · rw [if_neg d4] at e4
          simp only [txTryFrom, e1, e2, e3, e4]
          have hfs : txFieldStart tx L = 4 + (varIntLen tx.inputs.length +
              (((tx.inputs.map inputSizes).flatten).sum + 0)) := by
            rw [txFieldStart, txSizes_assoc, fsWalk_cons, if_pos d1, fsWalk_cons,
              if_pos d2, fsWalk_append, if_pos d3, fsWalk_cons, if_neg d4]
          rw [hfs]
          rw [drop_take_append (toLeBytes_length 4 tx.version) d1,
            drop_take_append (varIntEncode_length tx.inputs.length) d2,
            drop_take_append hF1 d3, List.drop_zero]
          congr 2
          rw [hBL, List.length_take, List.length_append, List.length_append, hF2,
            toLeBytes_length, varIntEncode_length]
          omega
      · rw [if_neg d3] at e3
        simp only [txTryFrom, e1, e2, e3]
        have hfs : txFieldStart tx L = 4 + (varIntLen tx.inputs.length +
            fsWalk ((tx.inputs.map inputSizes).flatten)
              (L - 4 - varIntLen tx.inputs.length)) := by
          rw [txFieldStart, txSizes_assoc, fsWalk_cons, if_pos d1, fsWalk_cons,
            if_pos d2, fsWalk_append, if_neg d3]
        rw [hfs]
        rw [drop_take_append (toLeBytes_length 4 tx.version) d1,
          drop_take_append (varIntEncode_length tx.inputs.length) d2]
        congr 2
        have hw := fsWalk_le ((tx.inputs.map inputSizes).flatten)
          (L - 4 - varIntLen tx.inputs.length)
        rw [hBL, List.length_drop, List.length_take, List.length_append,
          List.length_append, hF1, List.length_append, hF2, toLeBytes_length,
          varIntEncode_length]
        omega
    · rw [if_neg d2] at e2
      simp only [txTryFrom, e1, e2]
      have hfs : txFieldStart tx L = 4 := by
        rw [txFieldStart, txSizes_assoc, fsWalk_cons, if_pos d1, fsWalk_cons, if_neg d2]
      rw [hfs]
      have h4 : (4 : Nat) = 4 + 0 := by omega
      rw [h4, drop_take_append (toLeBytes_length 4 tx.version) d1, List.drop_zero]
      congr 2
      rw [hBL, List.length_take, List.length_append, List.length_append, hF1,
        List.length_append, List.length_append, hF2, varIntEncode_length,
        varIntEncode_length, toLeBytes_length]
      omega
  · rw [if_neg d1] at e1
    simp only [txTryFrom, e1]
    have hfs : txFieldStart tx L = 0 := by
      rw [txFieldStart, txSizes_assoc, fsWalk_cons, if_neg d1]
    rw [hfs, List.drop_zero]

/-! ## Lemmas about the script codec -/

theorem decode_cons (b : Nat) (rest : List Nat) :
    decode (b :: rest) = (match getOpcode (b :: rest) with
      | some (s, n) =>
        (match decode n with
         | .ok tl => .ok (s :: tl)
         | .error e => .error e)
      | none => .error (.InvalidOpCode b)) := by
  conv_lhs => unfold decode
  split
  · rename_i s n hg
    simp only [hg]
  · rename_i hg
    simp only [hg]

theorem decode_nil : decode [] = .ok [] := by
  unfold decode
  rfl

theorem toLeBytes_one (n : Nat) : toLeBytes 1 n = [n % 256] := by
  simp [toLeBytes, List.range_succ]

theorem toLeBytes_two (n : Nat) : toLeBytes 2 n = [n % 256, n / 256 % 256] := by
  simp [toLeBytes, List.range_succ]

theorem toLeBytes_four (n : Nat) :
    toLeBytes 4 n = [n % 256, n / 256 % 256, n / 256 ^ 2 % 256, n / 256 ^ 3 % 256] := by
  simp [toLeBytes, List.range_succ]

theorem dataOpcode_toU8 {v : Nat} (h : v ≤ 16) :
    (dataOpcode v).toU8 = if v = 0 then 0 else 0x50 + v := by
  interval_cases v <;> rfl

theorem fromU8_toU8 (op : OpCode) : OpCode.fromU8 op.toU8 = some op := by
  cases op <;> rfl

theorem toU8_gt_4b {op : OpCode} (h : op ≠ .OP_0) : 0x4b < op.toU8 := by
  cases op
  case OP_0 => exact absurd rfl h
  all_goals decide

theorem elemEncode_ne_nil {s : Script} {bs : List Nat} (he : elemEncode s = .ok bs) :
    bs ≠ [] := by
  match s with
  | .OpCode op =>
    simp only [elemEncode, Except.ok.injEq] at he
    subst he
    simp
  | .Data d =>
    simp only [elemEncode] at he
    unfold push_data at he
    split_ifs at he <;> simp only [Except.ok.injEq] at he <;> subst he <;> simp

theorem push_data_error_shape {d : List Nat} {e : Error}
    (h : push_data d = .error e) : e = .InvalidLengthData d.length := by
  unfold push_data at h
  split_ifs at h <;> simp_all

theorem getOpcode_cons (op : Nat) (rest : List Nat) :
    getOpcode (op :: rest) =
      if op ≤ 0x4b then
        if op ≤ rest.length then some (.Data (rest.take op), rest.drop op) else none
      else
        match OpCode.fromU8 op with
        | some .OP_PUSHDATA1 =>
          match rest with
          | [] => none
          | len :: r2 =>
            if len ≤ r2.length then some (.Data (r2.take len), r2.drop len) else none
        | some .OP_PUSHDATA2 =>
          if 2 ≤ rest.length then
            let len := fromLeBytes (rest.take 2)
            let r2 := rest.drop 2
            if len ≤ r2.length then some (.Data (r2.take len), r2.drop len) else none
          else none
        | some .OP_PUSHDATA4 =>
          if 4 ≤ rest.length then
            let len := fromLeBytes (rest.take 4)
            let r2 := rest.drop 4
            if len ≤ r2.length then some (.Data (r2.take len), r2.drop len) else none
          else none
        | some o => some (.OpCode o, rest)
        | none => none := rfl

theorem getOpcode_push_small {len : Nat} (hlen : len ≤ 0x4b) {d : List Nat}
    (hd : d.length = len) (rest : List Nat) :
    getOpcode (len :: (d ++ rest)) = some (.Data d, rest) := by
  rw [getOpcode_cons, if_pos hlen,
    if_pos (by rw [List.length_append]; omega),
    ← hd, List.take_left, List.drop_left]

theorem getOpcode_pd1 {len : Nat} (hlen : len ≤ 0xff) {d : List Nat}
    (hd : d.length = len) (rest : List Nat) :
    getOpcode (0x4c :: len :: (d ++ rest)) = some (.Data d, rest) := by
  rw [getOpcode_cons, if_neg (by omega)]
  have h1 : OpCode.fromU8 0x4c = some .OP_PUSHDATA1 := rfl
  rw [h1]
  simp only
  rw [if_pos (by rw [List.length_append]; omega), ← hd, List.take_left, List.drop_left]

theorem getOpcode_pd2 {len : Nat} (hlen : len ≤ 0xffff) {d : List Nat}
    (hd : d.length = len) (rest : List Nat) :
    getOpcode (0x4d :: (toLeBytes 2 len ++ (d ++ rest))) = some (.Data d, rest) := by
  rw [getOpcode_cons, if_neg (by omega)]
  have h1 : OpCode.fromU8 0x4d = some .OP_PUSHDATA2 := rfl
  rw [h1]
  simp only
  rw [if_pos (by rw [List.length_append, toLeBytes_length]; omega)]
  rw [List.take_append_of_le_length (by rw [toLeBytes_length]),
    List.take_of_length_le (by rw [toLeBytes_length]),
    fromLeBytes_toLeBytes (by omega),
    List.drop_left' (toLeBytes_length 2 len)]
  rw [if_pos (by rw [List.length_append]; omega), ← hd, List.take_left, List.drop_left]

theorem getOpcode_pd4 {len : Nat} (hlen : len ≤ 0xffffffff) {d : List Nat}
    (hd : d.length = len) (rest : List Nat) :
    getOpcode (0x4e :: (toLeBytes 4 len ++ (d ++ rest))) = some (.Data d, rest) := by
  rw [getOpcode_cons, if_neg (by omega)]
  have h1 : OpCode.fromU8 0x4e = some .OP_PUSHDATA4 := rfl
  rw [h1]
  simp only
  rw [if_pos (by rw [List.length_append, toLeBytes_length]; omega)]
  rw [List.take_append_of_le_length (by rw [toLeBytes_length]),
    List.take_of_length_le (by rw [toLeBytes_length]),
    fromLeBytes_toLeBytes (by norm_num only; omega),
    List.drop_left' (toLeBytes_length 4 len)]
  rw [if_pos (by rw [List.length_append]; omega), ← hd, List.take_left, List.drop_left]

theorem getOpcode_opcode {op : OpCode} (h0 : op ≠ .OP_0) (h1 : op ≠ .OP_PUSHDATA1)
    (h2 : op ≠ .OP_PUSHDATA2) (h4 : op ≠ .OP_PUSHDATA4) (rest : List Nat) :
    getOpcode (op.toU8 :: rest) = some (.OpCode op, rest) := by
  cases op
  case OP_0 => exact absurd rfl h0
  case OP_PUSHDATA1 => exact absurd rfl h1
  case OP_PUSHDATA2 => exact absurd rfl h2
  case OP_PUSHDATA4 => exact absurd rfl h4
  all_goals
    rw [getOpcode_cons, if_neg (by decide)]
    rfl

theorem getOpcode_elem {s : Script} (hc : canonicalElem s) {bs : List Nat}
    (he : elemEncode s = .ok bs) (rest : List Nat) :
    getOpcode (bs ++ rest) = some (s, rest) := by
  match s with
  | .OpCode op =>
    obtain ⟨h0, h1, h2, h4⟩ := hc
    simp only [elemEncode, Except.ok.injEq] at he
    subst he
    exact getOpcode_opcode h0 h1 h2 h4 rest
  | .Data d =>
    simp only [elemEncode] at he
    unfold push_data at he
    by_cases l0 : d.length = 0
    · rw [if_pos l0] at he
      simp only [Except.ok.injEq] at he
      subst he
      rw [List.length_eq_zero] at l0
      subst l0
      have h00 : OpCode.toU8 .OP_0 = 0 := rfl
      show getOpcode ([OpCode.toU8 .OP_0] ++ rest) = some (.Data [], rest)
      rw [h00]
      show getOpcode (List.length ([] : List Nat) :: (([] : List Nat) ++ rest)) =
        some (.Data [], rest)
      exact getOpcode_push_small (by simp) rfl rest
    · rw [if_neg l0] at he
      have hc1 : ¬(d.length = 1 ∧ d.headD 0 ≤ 16) := by
        intro ⟨ha, hb⟩
        have := (hc ha).1
        omega
      have hc2 : ¬(d.length = 1 ∧ d.headD 0 = 0x81) := by
        intro ⟨ha, hb⟩
        exact absurd hb (hc ha).2
      rw [if_neg hc1, if_neg hc2] at he
      by_cases l2 : d.length ≤ 0x4b
      · rw [if_pos l2] at he
        simp only [Except.ok.injEq] at he
        subst he
        exact getOpcode_push_small l2 rfl rest
      · rw [if_neg l2] at he
        by_cases l3 : d.length ≤ 0xff
        · rw [if_pos l3] at he
          simp only [Except.ok.injEq] at he
          subst he
          have h4c : OpCode.toU8 .OP_PUSHDATA1 = 0x4c := rfl
          show getOpcode ((OpCode.toU8 .OP_PUSHDATA1 :: (toLeBytes 1 d.length ++ d)) ++ rest) =
            some (.Data d, rest)
          rw [h4c, toLeBytes_one, Nat.mod_eq_of_lt (by omega), List.cons_append,
            List.singleton_append, List.cons_append]
          exact getOpcode_pd1 l3 rfl rest
        · rw [if_neg l3] at he
          by_cases l4 : d.length ≤ 0xffff
          · rw [if_pos l4] at he
            simp only [Except.ok.injEq] at he
            subst he
            have h4d : OpCode.toU8 .OP_PUSHDATA2 = 0x4d := rfl
            show getOpcode ((OpCode.toU8 .OP_PUSHDATA2 :: (toLeBytes 2 d.length ++ d)) ++ rest) =
              some (.Data d, rest)
            rw [h4d, List.cons_append, List.append_assoc]
            exact getOpcode_pd2 l4 rfl rest
          · rw [if_neg l4] at he
            by_cases l5 : d.length ≤ 0xffffffff
            · rw [if_pos l5] at he
              simp only [Except.ok.injEq] at he
              subst he
              have h4e : OpCode.toU8 .OP_PUSHDATA4 = 0x4e := rfl
              show getOpcode ((OpCode.toU8 .OP_PUSHDATA4 :: (toLeBytes 4 d.length ++ d)) ++ rest) =
                some (.Data d, rest)
              rw [h4e, List.cons_append, List.append_assoc]
              exact getOpcode_pd4 l5 rfl rest
            · rw [if_neg l5] at he
              exact absurd he (by simp)

/-- Claim C6 (corrected): for element sequences whose data pushes avoid the
single-byte numeric special cases (value 0..=16 or 0x81) and whose opcode
elements are none of the numeric zero opcode and the PUSHDATA opcodes,
decoding the encoding returns the original sequence.  As literally stated
the claim is false; see the counterexample. -/
theorem claim_C6 (e : List Script) (hc : ∀ s ∈ e, canonicalElem s) :
    ∀ bytes, encode e = .ok bytes → decode bytes = .ok e := by
  induction e with
  | nil =>
    intro bytes he
    simp only [encode, Except.ok.injEq] at he
    subst he
    exact decode_nil
  | cons s e' ih =>
    intro bytes he
    have hcs : canonicalElem s := hc s (by simp)
    have hce : ∀ t ∈ e', canonicalElem t := fun t ht => hc t (by simp [ht])
    simp only [encode] at he
    cases hhd : elemEncode s with
    | error err =>
      rw [hhd] at he
      exact absurd he (by simp)
    | ok hd =>
      rw [hhd] at he
      cases htl : encode e' with
      | error err =>
        rw [htl] at he
        exact absurd he (by simp)
      | ok tl =>
        rw [htl] at he
        simp only [Except.ok.injEq] at he
        subst he
        have hne := elemEncode_ne_nil hhd
        obtain ⟨b, hd2, rfl⟩ := List.exists_cons_of_ne_nil hne
        have hg := getOpcode_elem hcs hhd tl
        rw [List.cons_append] at hg ⊢
        rw [decode_cons]
        simp only [hg, ih hce tl htl]

theorem encode_opcode_single (op : OpCode) :
    encode [Script.OpCode op] = .ok [op.toU8] := by
  simp [encode, elemEncode]

/-- Claim C5 (corrected): the push-length policy of `push_data` agrees
with the spec's priority-ordered policy amended so that a single byte
with value 0 also takes the numeric-opcode form (the zero opcode), and
plain opcodes encode as their single byte. -/
theorem claim_C5 : (∀ d : List Nat, push_data d = pushDataSpec d) ∧
    (∀ op : OpCode, encode [Script.OpCode op] = .ok [op.toU8]) := by
  constructor
  · intro d
    unfold push_data pushDataSpec
    by_cases l0 : d.length = 0
    · rw [if_pos l0, if_pos l0]
      rfl
    · rw [if_neg l0, if_neg l0]
      by_cases l1 : d.length = 1 ∧ d.headD 0 ≤ 16
      · rw [if_pos l1, if_pos l1, dataOpcode_toU8 l1.2]
        by_cases h00 : d.headD 0 = 0
        · rw [if_pos h00, if_pos h00]
        · rw [if_neg h00, if_neg h00]
      · rw [if_neg l1, if_neg l1]
        by_cases l1b : d.length = 1 ∧ d.headD 0 = 0x81
        · rw [if_pos l1b, if_pos l1b]
          rfl
        · rw [if_neg l1b, if_neg l1b]
          by_cases l2 : d.length ≤ 0x4b
          · rw [if_pos l2, if_pos (⟨by omega, l2⟩ : 1 ≤ d.length ∧ d.length ≤ 0x4b)]
          · rw [if_neg l2, if_neg (fun hh : 1 ≤ d.length ∧ d.length ≤ 0x4b => l2 hh.2)]
            by_cases l3 : d.length ≤ 0xff
            · rw [if_pos l3,
                if_pos (⟨by omega, l3⟩ : 0x4c ≤ d.length ∧ d.length ≤ 0xff),
                toLeBytes_one, Nat.mod_eq_of_lt (by omega)]
              rfl
            · rw [if_neg l3, if_neg (fun hh : 0x4c ≤ d.length ∧ d.length ≤ 0xff => l3 hh.2)]
              by_cases l4 : d.length ≤ 0xffff
              · rw [if_pos l4,
                  if_pos (⟨by omega, l4⟩ : 0x100 ≤ d.length ∧ d.length ≤ 0xffff),
                  toLeBytes_two]
                rfl
              · rw [if_neg l4,
                  if_neg (fun hh : 0x100 ≤ d.length ∧ d.length ≤ 0xffff => l4 hh.2)]
                by_cases l5 : d.length ≤ 0xffffffff
                · rw [if_pos l5,
                    if_pos (⟨by omega, l5⟩ : 0x10000 ≤ d.length ∧ d.length ≤ 0xffffffff),
                    toLeBytes_four]
                  rfl
                · rw [if_neg l5,
                    if_neg (fun hh : 0x10000 ≤ d.length ∧ d.length ≤ 0xffffffff => l5 hh.2)]
  · exact encode_opcode_single

theorem encode_data_error {x : List Nat} {e : Error}
    (h : encode [Script.Data x] = .error e) : e = .InvalidLengthData x.length := by
  simp only [encode, elemEncode] at h
  cases hp : push_data x with
  | error e2 =>
    rw [hp] at h
    simp only [Except.error.injEq] at h
    subst h
    exact push_data_error_shape hp
  | ok sc =>
    rw [hp] at h
    exact absurd h (by simp)

theorem encode_data_ok {x : List Nat} {sc : List Nat} (hp : push_data x = .ok sc) :
    encode [Script.Data x] = .ok (sc ++ []) := by
  simp only [encode, elemEncode, hp]

/-- Claim C7 (confirmed): `witness_v0_hash` returns `InvalidIndex(index)`
exactly when the index is out of range for the inputs or no previous
output is available for it (neither both explicit arguments given nor a
side-table entry present).  The digest itself takes the builder by
shared reference, so no builder state can be mutated; the model reflects
this by being a pure function of the builder. -/
theorem claim_C7 (h : List Nat → List Nat) (tb : TxBuilder) (hash_type index : Nat)
    (pv : Option Nat) (ps : Option (List Nat)) :
    witnessV0Hash h tb hash_type index pv ps = .error (.InvalidIndex index) ↔
      (tb.tx.inputs.length ≤ index ∨
        (¬(pv.isSome ∧ ps.isSome) ∧ hmGet tb.prev_outputs index = none)) := by
  unfold witnessV0Hash witnessV0Preimage resolvePrev
  by_cases hargs : pv.isSome = true ∧ ps.isSome = true
  · rw [if_pos hargs]
    cases hidx : tb.tx.inputs[index]? with
    | none =>
      simp only [hidx]
      have hlen : tb.tx.inputs.length ≤ index := List.getElem?_eq_none_iff.mp hidx
      simp [hlen]
    | some input =>
      simp only [hidx]
      have hlt : index < tb.tx.inputs.length := by
        rw [List.getElem?_eq_some] at hidx
        exact hidx.1
      cases henc : encode [Script.Data (ps.getD [])] with
      | error e =>
        simp only [henc]
        have he := encode_data_error henc
        subst he
        simp only [Except.error.injEq]
        constructor
        · intro hii
          exact absurd hii (by simp)
        · intro hor
          rcases hor with hor | hor
          · omega
          · exact absurd hargs hor.1
      | ok sc =>
        simp only [henc]
        constructor
        · intro hii
          exact absurd hii (by simp)
        · intro hor
          rcases hor with hor | hor
          · omega
          · exact absurd hargs hor.1
  · rw [if_neg hargs]
    cases hget : hmGet tb.prev_outputs index with
    | none =>
      simp only [hget]
      simp [hargs, hget]
    | some o =>
      simp only [hget]
      cases hidx : tb.tx.inputs[index]? with
      | none =>
        simp only [hidx]
        have hlen : tb.tx.inputs.length ≤ index := List.getElem?_eq_none_iff.mp hidx
        simp [hlen]
      | some input =>
        simp only [hidx]
        have hlt : index < tb.tx.inputs.length := by
          rw [List.getElem?_eq_some] at hidx
          exact hidx.1
        cases henc : encode [Script.Data o.script] with
        | error e =>
          simp only [henc]
          have he := encode_data_error henc
          subst he
          simp only [Except.error.injEq]
          constructor
          · intro hii
            exact absurd hii (by simp)
          · intro hor
            rcases hor with hor | hor
            · omega
            · exact absurd hor.2 (by simp [hget])
        | ok sc =>
          simp only [henc]
          constructor
          · intro hii
            exact absurd hii (by simp)
          · intro hor
            rcases hor with hor | hor
            · omega
            · exact absurd hor.2 (by simp [hget])

/-- Claim C10 (confirmed): the explicit previous-output arguments of the
digest call are used only when both are given; an argument given alone is
ignored (the call behaves as if neither were given, falling back to the
side table, and fails with `InvalidIndex` when no entry exists); when
both are given they take precedence over any side-table content. -/
theorem claim_C10 (h : List Nat → List Nat) (tb : TxBuilder) (ht idx v : Nat)
    (s : List Nat) :
    (witnessV0Hash h tb ht idx (some v) none = witnessV0Hash h tb ht idx none none) ∧
    (witnessV0Hash h tb ht idx none (some s) = witnessV0Hash h tb ht idx none none) ∧
    (∀ m1 m2 : List (Nat × Output),
      witnessV0Hash h { tb with prev_outputs := m1 } ht idx (some v) (some s) =
        witnessV0Hash h { tb with prev_outputs := m2 } ht idx (some v) (some s)) ∧
    (hmGet tb.prev_outputs idx = none →
      witnessV0Hash h tb ht idx (some v) none = .error (.InvalidIndex idx)) := by
  refine ⟨?_, ?_, ?_, ?_⟩
  · simp [witnessV0Hash, witnessV0Preimage, resolvePrev]
  · simp [witnessV0Hash, witnessV0Preimage, resolvePrev]
  · intro m1 m2
    simp [witnessV0Hash, witnessV0Preimage, resolvePrev, hashPrevOuts,
      hashSequence, hashOutputs]
  · intro hget
    simp [witnessV0Hash, witnessV0Preimage, resolvePrev, hget]

/-- Claim C1 (corrected): whenever `witness_v0_hash` succeeds, the
scriptCode component of its preimage — the bytes between the 104-byte
fixed prefix (version, hashPrevouts, hashSequence, outpoint) and the
52-byte fixed suffix — is `push_data` applied to the resolved previous
locking script: a bare length prefix followed by the raw script bytes
only in the plain range, with empty scripts and single-byte scripts of
value 0..=16 or 0x81 replaced by a numeric opcode and longer scripts
wrapped in a PUSHDATA opcode.  As literally stated (always a bare
length-prefixed push, including single-byte scripts) the claim is false;
see the counterexample. -/
theorem claim_C1 (h : List Nat → List Nat) (tb : TxBuilder) (ht idx : Nat)
    (pv : Option Nat) (ps : Option (List Nat)) (P : List Nat)
    (hok : witnessV0Preimage h tb ht idx pv ps = .ok P) :
    ∃ v s input sc, resolvePrev tb idx pv ps = some (v, s) ∧
      tb.tx.inputs[idx]? = some input ∧ push_data s = .ok sc ∧
      P = toLeBytes 4 tb.tx.version ++ hashPrevOuts h tb ht ++ hashSequence h tb ht ++
        input.outpoint.txid ++ toLeBytes 4 input.outpoint.n ++ sc ++ toLeBytes 8 v ++
        toLeBytes 4 input.sequence_no ++ hashOutputs h tb ht idx ++
        toLeBytes 4 tb.tx.lock_time ++
        toLeBytes 4 (Nat.lor (tb.fork_id * 2 ^ 8 % 2 ^ 32) ht) := by
  unfold witnessV0Preimage at hok
  cases hres : resolvePrev tb idx pv ps with
  | none =>
    simp only [hres] at hok
    exact absurd hok (by simp)
  | some pr =>
    obtain ⟨v, s⟩ := pr
    simp only [hres] at hok
    cases hidx : tb.tx.inputs[idx]? with
    | none =>
      simp only [hidx] at hok
      exact absurd hok (by simp)
    | some input =>
      simp only [hidx] at hok
      cases hp : push_data s with
      | error e =>
        have henc : encode [Script.Data s] = .error e := by
          simp only [encode, elemEncode, hp]
        simp only [henc] at hok
        exact absurd hok (by simp)
      | ok sc =>
        rw [encode_data_ok hp] at hok
        simp only [Except.ok.injEq] at hok
        refine ⟨v, s, input, sc, rfl, rfl, hp, ?_⟩
        rw [← hok]
        simp [List.append_assoc]

/-! ## Remaining claim theorems, counterexamples and witnesses -/

/-- Counterexample to claim C1 as stated: with a single-byte previous
locking script `[0x01]`, the scriptCode component of the preimage is the
numeric opcode byte `0x51` (OP_1), not the length-prefixed push
`[0x01, 0x01]` the claim demands for every script including single-byte
ones. -/
theorem claim_C1_counterexample :
    witnessV0Preimage hZero tbOne 0x41 0 (some 5) (some [1]) =
      .ok ([2, 0, 0, 0] ++ List.replicate 32 0 ++ List.replicate 32 0 ++
        List.replicate 32 0 ++ [0, 0, 0, 0] ++ [0x51] ++ [5, 0, 0, 0, 0, 0, 0, 0] ++
        [0xff, 0xff, 0xff, 0xff] ++ List.replicate 32 0 ++ [0, 0, 0, 0] ++
        [0x41, 0, 0, 0]) ∧
    ¬ witnessV0Preimage hZero tbOne 0x41 0 (some 5) (some [1]) =
      .ok ([2, 0, 0, 0] ++ List.replicate 32 0 ++ List.replicate 32 0 ++
        List.replicate 32 0 ++ [0, 0, 0, 0] ++ [0x01, 0x01] ++ [5, 0, 0, 0, 0, 0, 0, 0] ++
        [0xff, 0xff, 0xff, 0xff] ++ List.replicate 32 0 ++ [0, 0, 0, 0] ++
        [0x41, 0, 0, 0]) := by
  decide

/-- Witness for claim C1 at a concrete builder and a one-byte script
0xaa (no special case): the scriptCode component is the two-byte push
`[0x01, 0xaa]`. -/
theorem claim_C1_witness :
    ∃ v s input sc, resolvePrev tbOne 0 (some 5) (some [0xaa]) = some (v, s) ∧
      tbOne.tx.inputs[0]? = some input ∧ push_data s = .ok sc ∧
      ([2, 0, 0, 0] ++ List.replicate 32 0 ++ List.replicate 32 0 ++
        List.replicate 32 0 ++ [0, 0, 0, 0] ++ [0x01, 0xaa] ++ [5, 0, 0, 0, 0, 0, 0, 0] ++
        [0xff, 0xff, 0xff, 0xff] ++ List.replicate 32 0 ++ [0, 0, 0, 0] ++
        [0x41, 0, 0, 0] : List Nat) =
        toLeBytes 4 tbOne.tx.version ++ hashPrevOuts hZero tbOne 0x41 ++
          hashSequence hZero tbOne 0x41 ++ input.outpoint.txid ++
          toLeBytes 4 input.outpoint.n ++ sc ++ toLeBytes 8 v ++
          toLeBytes 4 input.sequence_no ++ hashOutputs hZero tbOne 0x41 0 ++
          toLeBytes 4 tbOne.tx.lock_time ++
          toLeBytes 4 (Nat.lor (tbOne.fork_id * 2 ^ 8 % 2 ^ 32) 0x41) :=
  claim_C1 hZero tbOne 0x41 0 (some 5) (some [0xaa])
    ([2, 0, 0, 0] ++ List.replicate 32 0 ++ List.replicate 32 0 ++
      List.replicate 32 0 ++ [0, 0, 0, 0] ++ [0x01, 0xaa] ++ [5, 0, 0, 0, 0, 0, 0, 0] ++
      [0xff, 0xff, 0xff, 0xff] ++ List.replicate 32 0 ++ [0, 0, 0, 0] ++
      [0x41, 0, 0, 0]) (by decide)

/-- Claim C2 (corrected): parsing the serialization of a well-formed
transaction returns that transaction, so serialization round-trips from
the serialize side; the reverse direction of the original claim fails
because the parser ignores trailing bytes (see the counterexample). -/
theorem claim_C2 (tx : Transaction) (hwf : WfTx tx) :
    txTryFrom (txToVec tx) = .ok tx ∧
    ∀ t, txTryFrom (txToVec tx) = .ok t → txToVec t = txToVec tx := by
  have h := txTryFrom_toVec tx hwf
  refine ⟨h, fun t ht => ?_⟩
  rw [h] at ht
  injection ht with h2
  rw [← h2]

/-- Witness for claim C2 at a concrete one-input, one-output
transaction. -/
theorem claim_C2_witness :
    WfTx { version := 1
           inputs := [{ outpoint := { txid := List.replicate 32 0xaa, n := 1 },
                        script := [0x51], sequence_no := 0xffffffff }]
           outputs := [{ value := 5000, script := [0x76] }]
           lock_time := 0 } ∧
    txTryFrom (txToVec { version := 1
                         inputs := [{ outpoint := { txid := List.replicate 32 0xaa, n := 1 },
                                      script := [0x51], sequence_no := 0xffffffff }]
                         outputs := [{ value := 5000, script := [0x76] }]
                         lock_time := 0 }) =
      .ok { version := 1
            inputs := [{ outpoint := { txid := List.replicate 32 0xaa, n := 1 },
                         script := [0x51], sequence_no := 0xffffffff }]
            outputs := [{ value := 5000, script := [0x76] }]
            lock_time := 0 } :=
  ⟨by decide,
   (claim_C2 { version := 1
               inputs := [{ outpoint := { txid := List.replicate 32 0xaa, n := 1 },
                            script := [0x51], sequence_no := 0xffffffff }]
               outputs := [{ value := 5000, script := [0x76] }]
               lock_time := 0 } (by decide)).1⟩

/-- Counterexample to claim C2 as stated: appending a trailing byte to a
valid serialization still parses (the parser ignores bytes after the
lock time), but re-serializing drops the trailing byte, so
`serialize(parse(bytes)) ≠ bytes` on an accepted input. -/
theorem claim_C2_counterexample :
    txTryFrom (txToVec Transaction.new ++ [0]) = .ok Transaction.new ∧
    txToVec Transaction.new ≠ txToVec Transaction.new ++ [0] := by
  decide

/-- Claim C3 (code bug): on the non-canonical encoding
`[0xfd, 0x05, 0x00]` the decode succeeds with value 5 but the reader
advances by `VarInt::len(5) = 1` byte — the remaining slice still starts
with `0x05` — although the `0xfd` prefix dictates a 3-byte encoding. -/
theorem claim_C3 :
    readVarInt [0xfd, 0x05, 0x00] = some (5, [0x05, 0x00]) ∧
    varIntDictatedLen 0xfd = 3 ∧
    ([0xfd, 0x05, 0x00] : List Nat).length - ([0x05, 0x00] : List Nat).length = 1 := by
  decide

/-- Claim C4 (code bug): the 256-bit constructor panics (copy_from_slice
length mismatch: it copies `v[0..31]`, 31 bytes, into the 32-byte
array) for every input longer than 32 bytes instead of truncating;
shorter inputs are zero-padded and 32-byte inputs copied verbatim as
claimed. -/
theorem claim_C4 :
    uint256FromBytes (List.replicate 33 0) = none ∧
    uint256FromBytes (List.replicate 32 7) = some (List.replicate 32 7) ∧
    uint256FromBytes [9] = some (9 :: List.replicate 31 0) := by
  decide

/-- Counterexample to claim C5 as stated: the single byte 0x00 encodes
as the numeric zero opcode `[0x00]`, not as the literal length byte plus
data `[0x01, 0x00]` that the claimed policy (numeric opcodes only for
values 1..=16) produces. -/
theorem claim_C5_counterexample :
    push_data [0] = .ok [0x00] ∧ ([0x00] : List Nat) ≠ [0x01, 0x00] := by
  decide

/-- Counterexample to claim C6 as stated: the sequence consisting of the
bare opcode element OP_PUSHDATA1 encodes to `[0x4c]`, but decoding
`[0x4c]` fails (the byte announces a push whose length byte is
missing), so decode does not accept every byte string produced by
encode. -/
theorem claim_C6_counterexample :
    encode [Script.OpCode .OP_PUSHDATA1] = .ok [0x4c] ∧
    decode [0x4c] = .error (.InvalidOpCode 0x4c) := by
  constructor
  · rfl
  · rw [decode_cons]
    rfl

/-- Witness for claim C6 on a concrete canonical sequence. -/
theorem claim_C6_witness :
    decode [0x76, 0x02, 0xaa, 0xbb, 0x00] =
      .ok [Script.OpCode .OP_DUP, Script.Data [0xaa, 0xbb], Script.Data []] :=
  claim_C6 [Script.OpCode .OP_DUP, Script.Data [0xaa, 0xbb], Script.Data []]
    (by decide) [0x76, 0x02, 0xaa, 0xbb, 0x00] (by rfl)

/-- Claim C8 (corrected): parsing any strict prefix of a well-formed
transaction's serialization fails with a `TxParseError` whose offset is
the start position of the serialized field containing the truncation
point, and whose payload is the remaining bytes from that offset; the
offset equals the truncation offset only when the cut lands on a field
boundary. -/
theorem claim_C8 (tx : Transaction) (hwf : WfTx tx) (L : Nat)
    (hL : L < (txToVec tx).length) :
    txTryFrom ((txToVec tx).take L) =
      .error (.TxParseError (txFieldStart tx L)
        (((txToVec tx).take L).drop (txFieldStart tx L))) :=
  txTryFrom_take tx hwf L hL

/-- Witness for claim C8: a one-input transaction truncated at byte 45,
inside the sequence-number field that starts at byte 44. -/
theorem claim_C8_witness :
    txTryFrom ((txToVec { version := 1
                          inputs := [{ outpoint := { txid := List.replicate 32 0xaa, n := 1 },
                                       script := [0xde, 0xad], sequence_no := 0xffffffff }]
                          outputs := []
                          lock_time := 0 }).take 45) =
      .error (.TxParseError
        (txFieldStart { version := 1
                        inputs := [{ outpoint := { txid := List.replicate 32 0xaa, n := 1 },
                                     script := [0xde, 0xad], sequence_no := 0xffffffff }]
                        outputs := []
                        lock_time := 0 } 45)
        (((txToVec { version := 1
                     inputs := [{ outpoint := { txid := List.replicate 32 0xaa, n := 1 },
                                  script := [0xde, 0xad], sequence_no := 0xffffffff }]
                     outputs := []
                     lock_time := 0 }).take 45).drop
          (txFieldStart { version := 1
                          inputs := [{ outpoint := { txid := List.replicate 32 0xaa, n := 1 },
                                       script := [0xde, 0xad], sequence_no := 0xffffffff }]
                          outputs := []
                          lock_time := 0 } 45))) :=
  claim_C8 { version := 1
             inputs := [{ outpoint := { txid := List.replicate 32 0xaa, n := 1 },
                          script := [0xde, 0xad], sequence_no := 0xffffffff }]
             outputs := []
             lock_time := 0 } (by decide) 45 (by decide)

/-- Counterexample to claim C8 as stated: truncating the 10-byte empty
transaction to its first 2 bytes fails with offset 0 (the start of the
version field being read), not with the truncation offset 2. -/
theorem claim_C8_counterexample :
    txTryFrom ((txToVec Transaction.new).take 2) = .error (.TxParseError 0 [2, 0]) ∧
    ((txToVec Transaction.new).take 2).length = 2 ∧ (0 : Nat) ≠ 2 := by
  decide

/-- Claim C9 (code bug): `add_input` fails with the hex error and no
mutation on malformed hex, and otherwise appends exactly one input with
the side-table entry recorded iff both value and script are given — but
for a well-formed hex id longer than 64 digits it panics (through the
256-bit constructor's copy_from_slice length mismatch) instead of
completing or failing. -/
theorem claim_C9 :
    addInput TxBuilder.new (List.replicate 66 '0') 0 none none none = .panicked ∧
    addInput TxBuilder.new ['0'] 0 none none none = .fail .HexError ∧
    addInput TxBuilder.new (List.replicate 64 '0') 1 (some 7) (some [0xaa]) none =
      .ok { tx := { version := 2
                    inputs := [Input.new (List.replicate 32 0) 1 none]
                    outputs := [], lock_time := 0 }
            prev_outputs := [(0, Output.new 7 [0xaa])], fork_id := 0 } ∧
    addInput TxBuilder.new (List.replicate 64 '0') 1 (some 7) none none =
      .ok { tx := { version := 2
                    inputs := [Input.new (List.replicate 32 0) 1 none]
                    outputs := [], lock_time := 0 }
            prev_outputs := [], fork_id := 0 } := by
  decide

/-- Witness for claim C10: with an empty side table, supplying only the
previous value is ignored and the digest fails with InvalidIndex. -/
theorem claim_C10_witness :
    hmGet tbOne.prev_outputs 0 = none ∧
    witnessV0Hash hZero tbOne 1 0 (some 5) none = .error (.InvalidIndex 0) :=
  ⟨by decide, (claim_C10 hZero tbOne 1 0 5 [0xaa]).2.2.2 (by decide)⟩

end CashTx
